import Mathlib

/-!
Verification of the media-downloader repository.

The repository contains four Python scripts; the claims under study concern
`x_twitter_media_downloader.py` (namespace `XT` below),
`twitter_media_downloader.py` (namespace `TW`), and
`twitter_scraper_downloader.py` (namespace `TS`).

The shallow embedding follows the Python sources:
  * JSON payloads are modelled by the inductive type `JVal`.  JSON numbers are
    modelled as integers (the bitrate fields the code reads are integers in
    every payload shape the code handles).
  * Python dictionaries are association lists (`VDict`); Python's
    insertion-order iteration corresponds to list order, and `dget` is
    `dict.get` with `None` (here `JVal.jnull`) as default.
  * Python truthiness is `truthy`; `int(x)` coercion is `pyToInt` (string
    parsing is restricted to an optional sign followed by ASCII digits, the
    only shape the payloads exercise; any unparseable value yields `none`,
    which the call sites turn into the default `0` exactly as the `except`
    blocks in the source do).
  * `list.sort(key=...)` (Timsort) is a stable ascending sort; it is modelled
    by `List.insertionSort`, which is extensionally the same function (both
    are sorted stable permutations, and those are unique).
  * Filesystem and network effects are modelled by explicit state passing and
    oracle functions; see the `FS` and fetch-oracle definitions further down.
-/

inductive JVal where
  | jnull
  | jbool (b : Bool)
  | jint (n : Int)
  | jstr (s : String)
  | jarr (xs : List JVal)
  | jobj (fs : List (String × JVal))
  deriving Repr

/-- Python dictionaries (insertion ordered) as association lists. -/
abbrev VDict := List (String × JVal)

mutual

def jbeq : JVal → JVal → Bool
  | .jnull, .jnull => true
  | .jbool a, .jbool b => a == b
  | .jint a, .jint b => a == b
  | .jstr a, .jstr b => a == b
  | .jarr xs, .jarr ys => jbeqArr xs ys
  | .jobj fs, .jobj gs => jbeqObj fs gs
  | _, _ => false

def jbeqArr : List JVal → List JVal → Bool
  | [], [] => true
  | x :: xs, y :: ys => jbeq x y && jbeqArr xs ys
  | _, _ => false

def jbeqObj : List (String × JVal) → List (String × JVal) → Bool
  | [], [] => true
  | (k, v) :: fs, (k2, v2) :: gs => k == k2 && jbeq v v2 && jbeqObj fs gs
  | _, _ => false

end

mutual

theorem jbeq_refl : ∀ a : JVal, jbeq a a = true
  | .jnull => rfl
  | .jbool b => by simp [jbeq]
  | .jint n => by simp [jbeq]
  | .jstr s => by simp [jbeq]
  | .jarr xs => by simp [jbeq, jbeqArr_refl xs]
  | .jobj fs => by simp [jbeq, jbeqObj_refl fs]

theorem jbeqArr_refl : ∀ xs : List JVal, jbeqArr xs xs = true
  | [] => rfl
  | x :: xs => by simp [jbeqArr, jbeq_refl x, jbeqArr_refl xs]

theorem jbeqObj_refl : ∀ fs : List (String × JVal), jbeqObj fs fs = true
  | [] => rfl
  | (k, v) :: fs => by simp [jbeqObj, jbeq_refl v, jbeqObj_refl fs]

end

mutual

theorem jbeq_eq : ∀ a b : JVal, jbeq a b = true → a = b
  | .jnull, .jnull, _ => rfl
  | .jbool a, .jbool b, h => by simp [jbeq] at h; simp [h]
  | .jint a, .jint b, h => by simp [jbeq] at h; simp [h]
  | .jstr a, .jstr b, h => by simp [jbeq] at h; simp [h]
  | .jarr xs, .jarr ys, h => by
      simp only [jbeq] at h
      simp [jbeqArr_eq xs ys h]
  | .jobj fs, .jobj gs, h => by
      simp only [jbeq] at h
      simp [jbeqObj_eq fs gs h]
  | .jnull, .jbool _, h => by simp [jbeq] at h
  | .jnull, .jint _, h => by simp [jbeq] at h
  | .jnull, .jstr _, h => by simp [jbeq] at h
  | .jnull, .jarr _, h => by simp [jbeq] at h
  | .jnull, .jobj _, h => by simp [jbeq] at h
  | .jbool _, .jnull, h => by simp [jbeq] at h
  | .jbool _, .jint _, h => by simp [jbeq] at h
  | .jbool _, .jstr _, h => by simp [jbeq] at h
  | .jbool _, .jarr _, h => by simp [jbeq] at h
  | .jbool _, .jobj _, h => by simp [jbeq] at h
  | .jint _, .jnull, h => by simp [jbeq] at h
  | .jint _, .jbool _, h => by simp [jbeq] at h
  | .jint _, .jstr _, h => by simp [jbeq] at h
  | .jint _, .jarr _, h => by simp [jbeq] at h
  | .jint _, .jobj _, h => by simp [jbeq] at h
  | .jstr _, .jnull, h => by simp [jbeq] at h
  | .jstr _, .jbool _, h => by simp [jbeq] at h
  | .jstr _, .jint _, h => by simp [jbeq] at h
  | .jstr _, .jarr _, h => by simp [jbeq] at h
  | .jstr _, .jobj _, h => by simp [jbeq] at h
  | .jarr _, .jnull, h => by simp [jbeq] at h
  | .jarr _, .jbool _, h => by simp [jbeq] at h
  | .jarr _, .jint _, h => by simp [jbeq] at h
  | .jarr _, .jstr _, h => by simp [jbeq] at h
  | .jarr _, .jobj _, h => by simp [jbeq] at h
  | .jobj _, .jnull, h => by simp [jbeq] at h
  | .jobj _, .jbool _, h => by simp [jbeq] at h
  | .jobj _, .jint _, h => by simp [jbeq] at h
  | .jobj _, .jstr _, h => by simp [jbeq] at h
  | .jobj _, .jarr _, h => by simp [jbeq] at h

theorem jbeqArr_eq : ∀ xs ys : List JVal, jbeqArr xs ys = true → xs = ys
  | [], [], _ => rfl
  | x :: xs, y :: ys, h => by
      simp only [jbeqArr, Bool.and_eq_true] at h
      simp [jbeq_eq x y h.1, jbeqArr_eq xs ys h.2]
  | [], _ :: _, h => by simp [jbeqArr] at h
  | _ :: _, [], h => by simp [jbeqArr] at h

theorem jbeqObj_eq : ∀ fs gs : List (String × JVal), jbeqObj fs gs = true → fs = gs
  | [], [], _ => rfl
  | (k, v) :: fs, (k2, v2) :: gs, h => by
      simp only [jbeqObj, Bool.and_eq_true, beq_iff_eq] at h
      simp [h.1.1, jbeq_eq v v2 h.1.2, jbeqObj_eq fs gs h.2]
  | [], _ :: _, h => by simp [jbeqObj] at h
  | _ :: _, [], h => by simp [jbeqObj] at h

end

instance : DecidableEq JVal := fun a b =>
  if h : jbeq a b = true then isTrue (jbeq_eq a b h)
  else isFalse (fun he => h (he ▸ jbeq_refl a))

/-- `d.get(k)` on a Python dict: first binding for `k`, if any. -/
def dlookup (fs : VDict) (k : String) : Option JVal :=
  match fs with
  | [] => none
  | (k2, v) :: rest => if k2 = k then some v else dlookup rest k

/-- `d.get(k)` with Python's `None` default rendered as `jnull`. -/
def dget (fs : VDict) (k : String) : JVal :=
  (dlookup fs k).getD .jnull

/-- Python truthiness of a JSON value: `None`, `False`, `0`, `""`, `[]` and
`{}` are falsy, everything else truthy. -/
def truthy : JVal → Bool
  | .jnull => false
  | .jbool b => b
  | .jint n => n != 0
  | .jstr s => s ≠ ""
  | .jarr xs => xs ≠ []
  | .jobj fs => fs ≠ []

/-- `a or b` on JSON values (Python returns `a` when truthy, else `b`). -/
def pyOr (a b : JVal) : JVal :=
  if truthy a then a else b

/-- Parse a decimal integer the way Python's `int(str)` does, restricted to an
optional sign followed by ASCII digits (surrounding whitespace, underscores
and non-ASCII digits, which never occur in the payloads, are not modelled). -/
def pyIntOfString (s : String) : Option Int :=
  let chars := s.toList
  let digits :=
    match chars with
    | '-' :: rest => some (true, rest)
    | '+' :: rest => some (false, rest)
    | rest => some (false, rest)
  match digits with
  | some (neg, ds) =>
      if ds ≠ [] ∧ ds.all Char.isDigit then
        let n : Nat := ds.foldl (fun acc c => acc * 10 + (c.toNat - '0'.toNat)) 0
        some (if neg then -(n : Int) else (n : Int))
      else none
  | none => none

/-- Python's `int(x)` as used in the bitrate parsing: integers pass through,
booleans become 0/1, decimal strings parse; everything else raises (`none`). -/
def pyToInt : JVal → Option Int
  | .jint n => some n
  | .jbool b => some (if b then 1 else 0)
  | .jstr s => pyIntOfString s
  | _ => none

/-! ### `x_twitter_media_downloader.py`: variant selection (claim C1) -/

namespace XT

/-- Bitrate of a variant, per lines 221-227 of `x_twitter_media_downloader.py`
(identical code appears at lines 355-361):
`br = v.get('bitrate') or v.get('bit_rate') or 0`, then `int(br)` with the
default `0` restored on any exception. -/
def variantBitrate (v : VDict) : Int :=
  let br := pyOr (dget v "bitrate") (pyOr (dget v "bit_rate") (.jint 0))
  (pyToInt br).getD 0

/-- The comparison `sortable.sort(key=lambda x: x[0])` sorts by. -/
def brLE (a b : VDict) : Prop := variantBitrate a ≤ variantBitrate b

instance : DecidableRel brLE := fun a b => inferInstanceAs (Decidable (_ ≤ _))

/-- Python's stable ascending `list.sort(key=bitrate)`, modelled by insertion
sort (extensionally identical: both are sorted stable permutations). -/
def sortByBitrate (vs : List VDict) : List VDict :=
  List.insertionSort brLE vs

/-- `pick_best_variant` (lines 215-229): sort the `(bitrate, variant)` pairs
ascending and return the variant of the last pair (`sortable[-1][1]`), or
`None` on an empty list. -/
def pick_best_variant (vs : List VDict) : Option VDict :=
  match vs with
  | [] => none
  | _ => (sortByBitrate vs).getLast?

/-- The `--all` target list built at lines 352-363 of
`download_from_tweet_url`: every variant, stably sorted by ascending
bitrate. -/
def download_all_targets (vs : List VDict) : List VDict :=
  sortByBitrate vs

end XT

namespace XT

instance : IsTotal VDict brLE :=
  ⟨fun a b => le_total (variantBitrate a) (variantBitrate b)⟩

instance : IsTrans VDict brLE :=
  ⟨fun _ _ _ hab hbc => le_trans hab hbc⟩

theorem sorted_sortByBitrate (vs : List VDict) :
    List.Sorted brLE (sortByBitrate vs) :=
  List.sorted_insertionSort brLE vs

theorem perm_sortByBitrate (vs : List VDict) :
    (sortByBitrate vs).Perm vs :=
  List.perm_insertionSort brLE vs

/-- In a list sorted ascending by bitrate the last element is maximal. -/
theorem last_max_of_sorted :
    ∀ (l : List VDict) (v : VDict), List.Sorted brLE l →
      l.getLast? = some v → ∀ w ∈ l, variantBitrate w ≤ variantBitrate v
  | [], _, _, hlast, _ => by simp at hlast
  | [x], v, _, hlast, w => by
      intro hw
      have hxv : x = v := by simpa using hlast
      have hwx : w = x := by simpa using hw
      rw [hwx, hxv]
  | x :: y :: t, v, hsorted, hlast, w => by
      intro hw
      have hxy : brLE x y := (List.sorted_cons.mp hsorted).1 y (by simp)
      have htail : List.Sorted brLE (y :: t) := (List.sorted_cons.mp hsorted).2
      have hlast2 : (y :: t).getLast? = some v := by
        simpa [List.getLast?_cons_cons] using hlast
      rcases List.mem_cons.mp hw with hw | hw
      · have hy : variantBitrate y ≤ variantBitrate v :=
          last_max_of_sorted (y :: t) v htail hlast2 y (by simp)
        rw [hw]
        exact le_trans hxy hy
      · exact last_max_of_sorted (y :: t) v htail hlast2 w hw

/-- Stability of `orderedInsert` phrased through filtering on an exact
bitrate: inserting `x` puts it in front of the elements of equal bitrate. -/
theorem filter_orderedInsert (b : Int) (x : VDict) :
    ∀ s : List VDict,
      (List.orderedInsert brLE x s).filter (fun v => variantBitrate v == b) =
        if variantBitrate x == b then
          x :: s.filter (fun v => variantBitrate v == b)
        else s.filter (fun v => variantBitrate v == b)
  | [] => by
      simp only [List.orderedInsert_nil, List.filter]
      by_cases hx : variantBitrate x == b <;> simp [hx, List.filter]
  | y :: ys => by
      by_cases hxy : brLE x y
      · rw [List.orderedInsert_of_le _ _ hxy]
        by_cases hx : variantBitrate x == b <;> simp [List.filter, hx]
      · have hlt : variantBitrate y < variantBitrate x := by
          simpa [brLE, not_le] using hxy
        simp only [List.orderedInsert, if_neg hxy]
        by_cases hx : (variantBitrate x == b) = true
        · have hxb : variantBitrate x = b := by simpa using hx
          have hy : (variantBitrate y == b) = false := by
            have hne : variantBitrate y ≠ b := by
              intro hyb
              rw [hxb, hyb] at hlt
              exact lt_irrefl b hlt
            simpa using hne
          simp [List.filter_cons, hy, filter_orderedInsert b x ys, hx]
        · have hx2 : (variantBitrate x == b) = false := by
            simpa using hx
          simp [List.filter_cons, filter_orderedInsert b x ys, hx2]

/-- Stability of the model sort: elements of any fixed bitrate keep their
original relative order. -/
theorem filter_sortByBitrate (b : Int) :
    ∀ vs : List VDict,
      (sortByBitrate vs).filter (fun v => variantBitrate v == b) =
        vs.filter (fun v => variantBitrate v == b)
  | [] => rfl
  | x :: vs => by
      have ih := filter_sortByBitrate b vs
      simp only [sortByBitrate] at ih ⊢
      simp only [List.insertionSort]
      rw [filter_orderedInsert b x (List.insertionSort brLE vs)]
      by_cases hx : (variantBitrate x == b) = true
      · simp [List.filter_cons, hx, ih]
      · have hx2 : (variantBitrate x == b) = false := by simpa using hx
        simp [List.filter_cons, hx2, ih]

/-- The three synthetic variants of the spec example, bitrates 500, 1000, 250. -/
def v500 : VDict :=
  [("bitrate", .jint 500), ("src", .jstr "https://video.example/a.mp4"),
   ("type", .jstr "video/mp4")]

def v1000 : VDict :=
  [("bitrate", .jint 1000), ("src", .jstr "https://video.example/b.mp4"),
   ("type", .jstr "video/mp4")]

def v250 : VDict :=
  [("bitrate", .jint 250), ("src", .jstr "https://video.example/c.mp4"),
   ("type", .jstr "video/mp4")]

end XT

/-- Claim C1: for every list of variants, with each candidate's bitrate read
as an integer defaulting to 0 when absent or unparseable,
`pick_best_variant` returns a maximum-bitrate variant of the list, and the
`--all` target list is the stable ascending-by-bitrate reordering of the
list (sorted, a permutation, with equal-bitrate runs in discovery order);
on the example bitrates {500, 1000, 250} the best pick is the bitrate-1000
variant and the `--all` order is 250, 500, 1000. -/
theorem C1_variant_selection (vs : List VDict) (h : vs ≠ []) :
    (∃ v, XT.pick_best_variant vs = some v ∧ v ∈ vs ∧
        ∀ w ∈ vs, XT.variantBitrate w ≤ XT.variantBitrate v)
    ∧ List.Sorted XT.brLE (XT.download_all_targets vs)
    ∧ (XT.download_all_targets vs).Perm vs
    ∧ (∀ b : Int, (XT.download_all_targets vs).filter
          (fun v => XT.variantBitrate v == b) =
        vs.filter (fun v => XT.variantBitrate v == b))
    ∧ XT.variantBitrate [("url", .jstr "https://video.example/a.mp4")] = 0
    ∧ XT.variantBitrate [("bitrate", .jstr "garbage")] = 0
    ∧ XT.pick_best_variant [XT.v500, XT.v1000, XT.v250] = some XT.v1000
    ∧ XT.download_all_targets [XT.v500, XT.v1000, XT.v250] =
        [XT.v250, XT.v500, XT.v1000] := by
  refine ⟨?_, XT.sorted_sortByBitrate vs, XT.perm_sortByBitrate vs,
    fun b => XT.filter_sortByBitrate b vs, by decide, by decide, by decide,
    by decide⟩
  have hns : XT.sortByBitrate vs ≠ [] := by
    intro hnil
    have := (XT.perm_sortByBitrate vs).length_eq
    rw [hnil] at this
    exact h (List.eq_nil_of_length_eq_zero this.symm)
  obtain ⟨v, hv⟩ : ∃ v, (XT.sortByBitrate vs).getLast? = some v :=
    ⟨_, List.getLast?_eq_getLast_of_ne_nil hns⟩
  refine ⟨v, ?_, ?_, ?_⟩
  · cases vs with
    | nil => exact absurd rfl h
    | cons x t => simpa [XT.pick_best_variant] using hv
  · have hmem : v ∈ XT.sortByBitrate vs := by
      rcases List.mem_getLast?_eq_getLast hv with ⟨hne, hveq⟩
      exact hveq ▸ List.getLast_mem hne
    exact (XT.perm_sortByBitrate vs).mem_iff.mp hmem
  · intro w hw
    have hw2 : w ∈ XT.sortByBitrate vs := (XT.perm_sortByBitrate vs).mem_iff.mpr hw
    exact XT.last_max_of_sorted _ v (XT.sorted_sortByBitrate vs) hv w hw2

/-- Witness for C1 at the concrete three-variant example payload. -/
theorem C1_variant_selection_witness :
    XT.pick_best_variant [XT.v500, XT.v1000, XT.v250] = some XT.v1000 ∧
    XT.download_all_targets [XT.v500, XT.v1000, XT.v250] =
      [XT.v250, XT.v500, XT.v1000] := by
  have h := C1_variant_selection [XT.v500, XT.v1000, XT.v250] (by decide)
  exact ⟨h.2.2.2.2.2.2.1, h.2.2.2.2.2.2.2⟩

instance {ε α : Type} [DecidableEq ε] [DecidableEq α] : DecidableEq (Except ε α) :=
  fun x y =>
    match x, y with
    | .ok a, .ok b =>
      if h : a = b then isTrue (by rw [h])
      else isFalse (by intro he; cases he; exact h rfl)
    | .error a, .error b =>
      if h : a = b then isTrue (by rw [h])
      else isFalse (by intro he; cases he; exact h rfl)
    | .ok _, .error _ => isFalse (by intro h; cases h)
    | .error _, .ok _ => isFalse (by intro h; cases h)

/-- Whether an `Except` result is a success. -/
def isOkE {ε α : Type} : Except ε α → Bool
  | .ok _ => true
  | .error _ => false

/-! ### URL parsing model (`urllib.parse.urlsplit` / `parse_qs`)

The model works on `List Char`.  It follows CPython's `urlsplit`: an optional
scheme (a leading run of scheme characters starting with an ASCII letter,
terminated by the first colon), then `//netloc` up to the first of `/?#`,
then the fragment after the first `#`, then the query after the first `?`.
Percent-decoding and `+`-decoding of query values, which `parse_qs`
performs, are not modelled (no claim exercises them). -/

def splitFirst (c : Char) : List Char → List Char × Option (List Char)
  | [] => ([], none)
  | a :: l =>
    if a = c then ([], some l)
    else
      let r := splitFirst c l
      (a :: r.1, r.2)

/-- Python `str.split(sep)`: keeps empty segments, never returns `[]`. -/
def splitChar (sep : Char) : List Char → List (List Char)
  | [] => [[]]
  | a :: l =>
    match splitChar sep l with
    | [] => [[a]]
    | r :: rs => if a = sep then [] :: r :: rs else (a :: r) :: rs

def schemeChar (c : Char) : Bool :=
  c.isAlphanum || c = '+' || c = '-' || c = '.'

/-- Scheme recognition of `urlsplit`: the part before the first colon, when
nonempty, starting with a letter and made of scheme characters. -/
def splitScheme (l : List Char) : List Char × List Char :=
  match splitFirst ':' l with
  | (pre, some post) =>
      if pre ≠ [] ∧ (pre.headD ' ').isAlpha ∧ pre.all schemeChar then
        (pre.map Char.toLower, post)
      else ([], l)
  | (_, none) => ([], l)

/-- Netloc: everything up to the first `/`, `?` or `#`. -/
def takeNetloc : List Char → List Char × List Char
  | [] => ([], [])
  | a :: l =>
    if a = '/' ∨ a = '?' ∨ a = '#' then ([], a :: l)
    else
      let r := takeNetloc l
      (a :: r.1, r.2)

structure UrlParts where
  scheme : List Char
  netloc : List Char
  path : List Char
  query : List Char
  fragment : List Char
  deriving Repr, DecidableEq

def urlsplitL (l : List Char) : UrlParts :=
  let s1 := splitScheme l
  let r1 := s1.2
  let n := if r1.take 2 = ['/', '/'] then takeNetloc (r1.drop 2) else ([], r1)
  let f := splitFirst '#' n.2
  let q := splitFirst '?' f.1
  ⟨s1.1, n.1, q.1, (q.2).getD [], (f.2).getD []⟩

/-- `parse_qs` with default arguments: split the query on `&`, keep only
parts with an `=` and a nonempty value (`keep_blank_values=False`). -/
def parseQsPairs (q : List Char) : List (List Char × List Char) :=
  (splitChar '&' q).filterMap (fun part =>
    match splitFirst '=' part with
    | (k, some v) => if v ≠ [] then some (k, v) else none
    | (_, none) => none)

/-- `q[key][0]` when `key in q` (first value bound to `key`). -/
def qsFirst (q : List Char) (key : List Char) : Option (List Char) :=
  (((parseQsPairs q).filter (fun p => p.1 = key)).head?).map (fun p => p.2)

/-- Python `str.isdigit` restricted to ASCII decimal digits (the non-ASCII
digits Python also accepts never occur in the inputs studied). -/
def pyIsDigit (l : List Char) : Bool :=
  (l ≠ [] : Bool) && l.all Char.isDigit

/-- Python `str.lower` (ASCII). -/
def pyLower (l : List Char) : List Char :=
  l.map Char.toLower

/-- Python `str.strip(c)`: drop leading and trailing occurrences of `c`. -/
def pyStripChar (c : Char) (l : List Char) : List Char :=
  ((l.dropWhile (fun a => a = c)).reverse.dropWhile (fun a => a = c)).reverse

def startsWithL : List Char → List Char → Bool
  | [], _ => true
  | _ :: _, [] => false
  | p :: ps, a :: l => p == a && startsWithL ps l

/-- Scanner for `str.replace`: `skip` counts characters still to drop after a
match was emitted; at `skip = 0` a matching position emits the replacement. -/
def replaceGo (pat rep : List Char) : Nat → List Char → List Char
  | _, [] => []
  | 0, a :: l =>
      if startsWithL pat (a :: l) then rep ++ replaceGo pat rep (pat.length - 1) l
      else a :: replaceGo pat rep 0 l
  | n + 1, _ :: l => replaceGo pat rep n l

/-- Python `str.replace(pat, rep)`: replace every non-overlapping occurrence,
scanning left to right. -/
def replaceAllL (pat rep : List Char) (l : List Char) : List Char :=
  if pat = [] then l else replaceGo pat rep 0 l

namespace XT

/-- Lines 72-82 of `extract_tweet_id`: scan the path segments for a part
equal to `status` (case-insensitively) that has a successor, returning that
successor.  The fallback loop at lines 78-82 repeats the same scan and can
never produce a value the first loop missed, so one scan models both. -/
def findStatusSuccessor : List (List Char) → Option (List Char)
  | [] => none
  | p :: rest =>
    if pyLower p = "status".toList ∧ rest ≠ [] then some (rest.headD [])
    else findStatusSuccessor rest

/-- `extract_tweet_id` of `x_twitter_media_downloader.py` (lines 50-97):
parse the URL, look for a `status` path segment with a successor, fall back
to the `id` query parameter, then validate that the candidate (up to the
first `?` or `#`) is all digits. -/
def extract_tweet_id (url : String) : Except String String :=
  let p := urlsplitL url.toList
  let parts := (splitChar '/' p.path).filter (fun seg => seg ≠ [])
  let tid1 :=
    match findStatusSuccessor parts with
    | some t => some t
    | none => qsFirst p.query ("id".toList)
  match tid1 with
  | none => .error "Could not extract tweet ID from URL. Expected .../status/<id>."
  | some t =>
    let t2 := t.takeWhile (fun c => c ≠ '?' ∧ c ≠ '#')
    if pyIsDigit t2 then .ok (String.mk t2)
    else .error ("Extracted tweet ID looks invalid: " ++ String.mk t2)

end XT

namespace TW

/-- `extract_tweet_id` of `twitter_media_downloader.py` (lines 38-56):
rewrite `twitter.com` to `x.com`, parse, and require the second
slash-separated path segment to equal `status` exactly, returning the third;
otherwise fall back to the `status` query parameter. -/
def extract_tweet_id (url : String) : Except String String :=
  let u2 := replaceAllL ("twitter.com".toList) ("x.com".toList) url.toList
  let p := urlsplitL u2
  let parts := splitChar '/' (pyStripChar '/' p.path)
  if parts.length ≥ 3 ∧ parts.getD 1 [] = "status".toList then
    .ok (String.mk (parts.getD 2 []))
  else
    match qsFirst p.query ("status".toList) with
    | some v => .ok (String.mk v)
    | none => .error ("Could not extract tweet ID from URL: " ++ String.mk u2)

end TW

example : XT.extract_tweet_id "https://x.com/user/status/1956686646272790863" =
    .ok "1956686646272790863" := by decide
example : XT.extract_tweet_id "https://twitter.com/user/status/1956686646272790863" =
    .ok "1956686646272790863" := by decide
example : XT.extract_tweet_id "https://mobile.twitter.com/user/status/1956686646272790863" =
    .ok "1956686646272790863" := by decide
example : XT.extract_tweet_id "https://x.com/i/web/status/1956686646272790863" =
    .ok "1956686646272790863" := by decide
example : XT.extract_tweet_id "https://x.com/abc?id=123" = .ok "123" := by decide
example : isOkE (XT.extract_tweet_id "https://x.com/foo") = false := by decide
example : isOkE (XT.extract_tweet_id "https://x.com/u/status/abc123") = false := by decide
example : TW.extract_tweet_id "https://twitter.com/user/status/1956686646272790863" =
    .ok "1956686646272790863" := by decide
example : isOkE (TW.extract_tweet_id "https://x.com/i/web/status/1956686646272790863") =
    false := by decide

/-! ### List toolkit for reasoning about the URL model on symbolic inputs -/

theorem splitFirst_not_mem (c : Char) :
    ∀ l : List Char, c ∉ l → splitFirst c l = (l, none)
  | [], _ => rfl
  | a :: l, h => by
      have ha : a ≠ c := fun he => h (he ▸ List.mem_cons_self a l)
      have ih := splitFirst_not_mem c l (fun hm => h (List.mem_cons_of_mem a hm))
      simp [splitFirst, if_neg ha, ih]

theorem splitFirst_append (c : Char) (l2 : List Char) :
    ∀ l1 : List Char, c ∉ l1 → splitFirst c (l1 ++ c :: l2) = (l1, some l2)
  | [], _ => by simp [splitFirst]
  | a :: l1, h => by
      have ha : a ≠ c := fun he => h (he ▸ List.mem_cons_self a l1)
      have ih := splitFirst_append c l2 l1 (fun hm => h (List.mem_cons_of_mem a hm))
      simp [splitFirst, if_neg ha, ih]

theorem takeNetloc_no_delim :
    ∀ l : List Char, (∀ c ∈ l, ¬(c = '/' ∨ c = '?' ∨ c = '#')) →
      takeNetloc l = (l, [])
  | [], _ => rfl
  | a :: l, h => by
      have ha := h a (List.mem_cons_self a l)
      have ih := takeNetloc_no_delim l (fun c hc => h c (List.mem_cons_of_mem a hc))
      simp [takeNetloc, if_neg ha, ih]

theorem takeNetloc_append (l2 : List Char) (d : Char)
    (hd : d = '/' ∨ d = '?' ∨ d = '#') :
    ∀ l1 : List Char, (∀ c ∈ l1, ¬(c = '/' ∨ c = '?' ∨ c = '#')) →
      takeNetloc (l1 ++ d :: l2) = (l1, d :: l2)
  | [], _ => by simp [takeNetloc, if_pos hd]
  | a :: l1, h => by
      have ha := h a (List.mem_cons_self a l1)
      have ih := takeNetloc_append l2 d hd l1 (fun c hc => h c (List.mem_cons_of_mem a hc))
      simp [takeNetloc, if_neg ha, ih]

theorem splitChar_ne_nil (sep : Char) : ∀ l : List Char, splitChar sep l ≠ []
  | [] => by simp [splitChar]
  | a :: l => by
      cases hsc : splitChar sep l with
      | nil => exact absurd hsc (splitChar_ne_nil sep l)
      | cons r rs => by_cases ha : a = sep <;> simp [splitChar, hsc, ha]

theorem splitChar_no_sep (sep : Char) :
    ∀ l : List Char, sep ∉ l → splitChar sep l = [l]
  | [], _ => rfl
  | a :: l, h => by
      have ha : a ≠ sep := fun he => h (he ▸ List.mem_cons_self a l)
      have ih := splitChar_no_sep sep l (fun hm => h (List.mem_cons_of_mem a hm))
      simp [splitChar, ih, if_neg ha]

theorem splitChar_append (sep : Char) (l2 : List Char) :
    ∀ l1 : List Char, sep ∉ l1 →
      splitChar sep (l1 ++ sep :: l2) = l1 :: splitChar sep l2
  | [], _ => by
      cases hsc : splitChar sep l2 with
      | nil => exact absurd hsc (splitChar_ne_nil sep l2)
      | cons r rs => simp [splitChar, hsc]
  | a :: l1, h => by
      have ha : a ≠ sep := fun he => h (he ▸ List.mem_cons_self a l1)
      have ih := splitChar_append sep l2 l1 (fun hm => h (List.mem_cons_of_mem a hm))
      cases hsc : splitChar sep (l1 ++ sep :: l2) with
      | nil => exact absurd hsc (splitChar_ne_nil sep _)
      | cons r rs =>
          rw [hsc] at ih
          simp only [List.cons_append, splitChar, List.append_eq, hsc, if_neg ha]
          injection ih with ih1 ih2
          rw [ih1, ih2]

theorem splitChar_cons_sep (sep : Char) (l : List Char) :
    splitChar sep (sep :: l) = [] :: splitChar sep l := by
  cases hsc : splitChar sep l with
  | nil => exact absurd hsc (splitChar_ne_nil sep l)
  | cons r rs => simp [splitChar, hsc]

/-- `urlsplit` on a well-formed `https://host/...` URL whose path carries no
query or fragment. -/
theorem urlsplit_https (host p2 : List Char)
    (hhost : ∀ c ∈ host, ¬(c = '/' ∨ c = '?' ∨ c = '#'))
    (hfrag : '#' ∉ '/' :: p2) (hq : '?' ∉ '/' :: p2) :
    urlsplitL ("https://".toList ++ (host ++ ('/' :: p2))) =
      ⟨"https".toList, host, '/' :: p2, [], []⟩ := by
  have h0 : ("https://".toList : List Char) = "https".toList ++ [':', '/', '/'] := by
    decide
  rw [h0, List.append_assoc]
  have hs : splitFirst ':'
      ("https".toList ++ ([':', '/', '/'] ++ (host ++ ('/' :: p2)))) =
      ("https".toList, some ('/' :: '/' :: (host ++ ('/' :: p2)))) := by
    have := splitFirst_append ':' ('/' :: '/' :: (host ++ ('/' :: p2)))
      ("https".toList) (by decide)
    simpa using this
  have hnet : takeNetloc (host ++ ('/' :: p2)) = (host, '/' :: p2) :=
    takeNetloc_append p2 '/' (Or.inl rfl) host hhost
  have hf : splitFirst '#' ('/' :: p2) = ('/' :: p2, none) :=
    splitFirst_not_mem '#' _ hfrag
  have hqq : splitFirst '?' ('/' :: p2) = ('/' :: p2, none) :=
    splitFirst_not_mem '?' _ hq
  simp only [urlsplitL, splitScheme, hs]
  rw [if_pos (by decide)]
  simp [hnet, hf, hqq]

/-- Characters allowed in a handle exclude every delimiter the parsers use. -/
theorem handleChar_benign (c : Char) (hc : c.isAlphanum ∨ c = '_') :
    c ≠ '/' ∧ c ≠ '?' ∧ c ≠ '#' ∧ c ≠ '.' ∧ c ≠ ':' := by
  rcases hc with h | h
  · refine ⟨?_, ?_, ?_, ?_, ?_⟩ <;> (intro he; subst he; revert h; decide)
  · subst h; decide

/-- `extract_tweet_id` of the `x_` script succeeds on
`https://<host>/<user>/status/1956686646272790863` for every handle made of
word characters that is not itself `status`. -/
theorem XT.extract_user_status (host : String) (user : List Char)
    (hhost : ∀ c ∈ host.toList, ¬(c = '/' ∨ c = '?' ∨ c = '#'))
    (hu1 : user ≠ [])
    (hu2 : ∀ c ∈ user, c.isAlphanum ∨ c = '_')
    (hu3 : pyLower user ≠ "status".toList) :
    XT.extract_tweet_id
        ("https://" ++ host ++ "/" ++ String.mk user ++ "/status/1956686646272790863") =
      .ok "1956686646272790863" := by
  have hbenign : ∀ c ∈ user, c ≠ '/' ∧ c ≠ '?' ∧ c ≠ '#' ∧ c ≠ '.' ∧ c ≠ ':' :=
    fun c hc => handleChar_benign c (hu2 c hc)
  set idl : List Char := "1956686646272790863".toList with hidl
  set p2 : List Char := user ++ ('/' :: ("status".toList ++ '/' :: idl)) with hp2
  have hlist :
      ("https://" ++ host ++ "/" ++ String.mk user ++ "/status/1956686646272790863").toList =
        "https://".toList ++ (host.toList ++ ('/' :: p2)) := by
    show ("https://" ++ host ++ "/" ++ String.mk user ++
      "/status/1956686646272790863").data = _
    rw [hp2, hidl]
    simp only [String.data_append, String.toList]
    simp [List.append_assoc]
  have hfrag : '#' ∉ '/' :: p2 := by
    rw [hp2]
    intro hmem
    simp only [List.mem_cons, List.mem_append] at hmem
    rcases hmem with h | (h | h)
    · exact absurd h (by decide)
    · exact (hbenign _ h).2.2.1 rfl
    · revert h; rw [hidl]; decide
  have hq : '?' ∉ '/' :: p2 := by
    rw [hp2]
    intro hmem
    simp only [List.mem_cons, List.mem_append] at hmem
    rcases hmem with h | (h | h)
    · exact absurd h (by decide)
    · exact (hbenign _ h).2.1 rfl
    · revert h; rw [hidl]; decide
  have hsplit := urlsplit_https host.toList p2 hhost hfrag hq
  have hparts : splitChar '/' ('/' :: p2) = [[], user, "status".toList, idl] := by
    rw [splitChar_cons_sep, hp2]
    rw [splitChar_append '/' _ user (fun hm => (hbenign '/' hm).1 rfl)]
    rw [splitChar_append '/' idl ("status".toList) (by decide)]
    rw [splitChar_no_sep '/' idl (by rw [hidl]; decide)]
  simp only [XT.extract_tweet_id, hlist, hsplit, hparts]
  have hfilter : ([[], user, "status".toList, idl] : List (List Char)).filter
      (fun seg => seg ≠ []) = [user, "status".toList, idl] := by
    simp only [List.filter]
    rw [hidl]
    simp [hu1]
  rw [hfilter]
  have hfind : XT.findStatusSuccessor [user, "status".toList, idl] = some idl := by
    simp only [XT.findStatusSuccessor]
    rw [if_neg (fun hc => hu3 hc.1)]
    rw [if_pos ⟨by decide, by simp⟩]
    simp
  rw [hfind]
  rw [hidl]
  decide

/-! ### Reasoning toolkit for `str.replace` -/

theorem startsWithL_mem : ∀ p l : List Char, startsWithL p l = true → ∀ c ∈ p, c ∈ l
  | [], _, _, c, hc => absurd hc (List.not_mem_nil c)
  | _ :: _, [], h, _, _ => by simp [startsWithL] at h
  | b :: p, a :: l, h, c, hc => by
      simp only [startsWithL, Bool.and_eq_true, beq_iff_eq] at h
      rcases List.mem_cons.mp hc with he | he
      · rw [he, h.1]
        exact List.mem_cons_self a l
      · exact List.mem_cons_of_mem a (startsWithL_mem p l h.2 c he)

theorem startsWithL_take_of_append :
    ∀ (p x y : List Char), startsWithL p (x ++ y) = true →
      startsWithL (p.take x.length) x = true
  | [], x, _, _ => by cases x <;> simp [startsWithL]
  | _ :: _, [], _, _ => by simp [startsWithL]
  | b :: p, a :: x, y, h => by
      simp only [List.cons_append, startsWithL, Bool.and_eq_true] at h
      simp only [List.length_cons, List.take_succ_cons, startsWithL, Bool.and_eq_true]
      exact ⟨h.1, startsWithL_take_of_append p x y h.2⟩

theorem startsWithL_self_append : ∀ p l : List Char, startsWithL p (p ++ l) = true
  | [], _ => rfl
  | a :: p, l => by simp [startsWithL, startsWithL_self_append p l]

theorem replaceGo_missing (pat rep : List Char) (c : Char) (hc : c ∈ pat) :
    ∀ l : List Char, (∀ a ∈ l, a ≠ c) → replaceGo pat rep 0 l = l
  | [], _ => rfl
  | a :: l, h => by
      have hsw : startsWithL pat (a :: l) = false := by
        cases hb : startsWithL pat (a :: l) with
        | false => rfl
        | true =>
            have hmem := startsWithL_mem pat (a :: l) hb c hc
            rcases List.mem_cons.mp hmem with he | he
            · exact absurd he.symm (h a (List.mem_cons_self a l))
            · exact absurd rfl (h c (List.mem_cons_of_mem a he))
      have ih := replaceGo_missing pat rep c hc l
        (fun b hb2 => h b (List.mem_cons_of_mem a hb2))
      simp [replaceGo, hsw, ih]

theorem replaceGo_append_clean (pat rep : List Char) :
    ∀ l1 l2 : List Char,
      (∀ i, i < l1.length → startsWithL (pat.take (l1.length - i)) (l1.drop i) = false) →
      replaceGo pat rep 0 (l1 ++ l2) = l1 ++ replaceGo pat rep 0 l2
  | [], _, _ => by simp
  | a :: l1, l2, h => by
      have hsw : startsWithL pat ((a :: l1) ++ l2) = false := by
        cases hb : startsWithL pat ((a :: l1) ++ l2) with
        | false => rfl
        | true =>
            have htk := startsWithL_take_of_append pat (a :: l1) l2 hb
            have h0 := h 0 (Nat.succ_pos _)
            rw [Nat.sub_zero, List.drop_zero] at h0
            rw [htk] at h0
            exact absurd h0 (by simp)
      have ih := replaceGo_append_clean pat rep l1 l2 (fun i hi => by
        have := h (i + 1) (Nat.succ_lt_succ hi)
        simpa [Nat.succ_sub_succ] using this)
      have hswe : startsWithL pat (a :: (l1 ++ l2)) = false := by simpa using hsw
      simp only [List.cons_append, replaceGo, List.append_eq]
      rw [hswe]
      simp [ih]

theorem replaceGo_skip (pat rep : List Char) :
    ∀ (x l2 : List Char), replaceGo pat rep x.length (x ++ l2) = replaceGo pat rep 0 l2
  | [], _ => rfl
  | a :: x, l2 => by
      simp only [List.length_cons, List.cons_append, replaceGo]
      exact replaceGo_skip pat rep x l2

theorem replaceGo_match (pat rep : List Char) (hp : pat ≠ []) (rest : List Char) :
    replaceGo pat rep 0 (pat ++ rest) = rep ++ replaceGo pat rep 0 rest := by
  cases pat with
  | nil => exact absurd rfl hp
  | cons p0 pt =>
      have hsw : startsWithL (p0 :: pt) (p0 :: (pt ++ rest)) = true := by
        simpa using startsWithL_self_append (p0 :: pt) rest
      simp only [List.cons_append, replaceGo, List.append_eq]
      rw [hsw]
      simp only [if_true]
      have hlen : (p0 :: pt).length - 1 = pt.length := by simp
      rw [hlen]
      exact congrArg (fun t => rep ++ t) (replaceGo_skip (p0 :: pt) rep pt rest)

/-- `'/'.strip` evaluation: one leading slash is stripped, and nothing at
the end when the last character is not a slash. -/
theorem pyStripChar_eval (u0 : Char) (ur v : List Char) (h0 : u0 ≠ '/')
    (hv : v ≠ []) (hlast : v.getLast? ≠ some '/') :
    pyStripChar '/' ('/' :: ((u0 :: ur) ++ v)) = (u0 :: ur) ++ v := by
  unfold pyStripChar
  rw [List.dropWhile_cons]
  rw [if_pos (by simp)]
  rw [show ((u0 :: ur) ++ v : List Char) = u0 :: (ur ++ v) from rfl]
  rw [List.dropWhile_cons, if_neg (by simp [h0])]
  obtain ⟨h1, t1, hv1⟩ : ∃ h1 t1, v.reverse = h1 :: t1 := by
    cases hvr : v.reverse with
    | nil =>
        have : v = [] := by simpa using congrArg List.reverse hvr
        exact absurd this hv
    | cons a l => exact ⟨a, l, rfl⟩
  have hh1 : h1 ≠ '/' := by
    have hh : v.reverse.head? = some h1 := by rw [hv1]; rfl
    rw [List.head?_reverse] at hh
    intro he
    exact hlast (he ▸ hh)
  have hrev : (u0 :: (ur ++ v)).reverse = h1 :: (t1 ++ (u0 :: ur).reverse) := by
    rw [show (u0 :: (ur ++ v) : List Char) = (u0 :: ur) ++ v from rfl,
      List.reverse_append, hv1]
    simp
  rw [hrev, List.dropWhile_cons, if_neg (by simp [hh1])]
  rw [← hrev]
  simp

/-- `extract_tweet_id` of `twitter_media_downloader.py` succeeds whenever the
`twitter.com → x.com` rewrite of the URL has the canonical
`https://host/user/status/1956686646272790863` shape. -/
theorem TW.extract_shape (url : String) (host user : List Char)
    (hrep : replaceAllL ("twitter.com".toList) ("x.com".toList) url.toList =
      "https://".toList ++ (host ++ ('/' :: (user ++
        ('/' :: ("status".toList ++ '/' :: "1956686646272790863".toList))))))
    (hhost : ∀ c ∈ host, ¬(c = '/' ∨ c = '?' ∨ c = '#'))
    (hu1 : user ≠ []) (hu2 : ∀ c ∈ user, c.isAlphanum ∨ c = '_') :
    TW.extract_tweet_id url = .ok "1956686646272790863" := by
  have hbenign : ∀ c ∈ user, c ≠ '/' ∧ c ≠ '?' ∧ c ≠ '#' ∧ c ≠ '.' ∧ c ≠ ':' :=
    fun c hc => handleChar_benign c (hu2 c hc)
  set idl : List Char := "1956686646272790863".toList with hidl
  set v : List Char := '/' :: ("status".toList ++ '/' :: idl) with hv
  have hfrag : '#' ∉ '/' :: (user ++ v) := by
    rw [hv]
    intro hmem
    simp only [List.mem_cons, List.mem_append] at hmem
    rcases hmem with h | (h | h)
    · exact absurd h (by decide)
    · exact (hbenign _ h).2.2.1 rfl
    · revert h; rw [hidl]; decide
  have hq : '?' ∉ '/' :: (user ++ v) := by
    rw [hv]
    intro hmem
    simp only [List.mem_cons, List.mem_append] at hmem
    rcases hmem with h | (h | h)
    · exact absurd h (by decide)
    · exact (hbenign _ h).2.1 rfl
    · revert h; rw [hidl]; decide
  have hsplit := urlsplit_https host (user ++ v) hhost hfrag hq
  obtain ⟨u0, ur, rfl⟩ : ∃ u0 ur, user = u0 :: ur := by
    cases user with
    | nil => exact absurd rfl hu1
    | cons a l => exact ⟨a, l, rfl⟩
  have hu0 : u0 ≠ '/' := (hbenign u0 (List.mem_cons_self u0 ur)).1
  have hvne : v ≠ [] := by rw [hv]; simp
  have hvlast : v.getLast? ≠ some '/' := by
    rw [hv, hidl]
    decide
  have hstrip := pyStripChar_eval u0 ur v hu0 hvne hvlast
  have hparts : splitChar '/' ((u0 :: ur) ++ v) =
      [u0 :: ur, "status".toList, idl] := by
    rw [hv]
    rw [splitChar_append '/' _ (u0 :: ur) (fun hm => (hbenign '/' hm).1 rfl)]
    rw [splitChar_append '/' idl ("status".toList) (by decide)]
    rw [splitChar_no_sep '/' idl (by rw [hidl]; decide)]
  simp only [TW.extract_tweet_id, hrep, hsplit, hstrip, hparts]
  rw [if_pos ⟨by simp, rfl⟩]
  rw [hidl]
  rfl

theorem replaceAll_x_shape (tail : List Char) (hdot : ∀ c ∈ tail, c ≠ '.') :
    replaceAllL ("twitter.com".toList) ("x.com".toList)
      ("https://x.com/".toList ++ tail) = "https://x.com/".toList ++ tail := by
  unfold replaceAllL
  rw [if_neg (by decide)]
  rw [replaceGo_append_clean _ _ ("https://x.com/".toList) _ (by decide)]
  rw [replaceGo_missing _ _ '.' (by decide) tail hdot]

theorem replaceAll_twitter_shape (tail : List Char) (hdot : ∀ c ∈ tail, c ≠ '.') :
    replaceAllL ("twitter.com".toList) ("x.com".toList)
      ("https://".toList ++ ("twitter.com".toList ++ tail)) =
      "https://".toList ++ ("x.com".toList ++ tail) := by
  unfold replaceAllL
  rw [if_neg (by decide)]
  rw [replaceGo_append_clean _ _ ("https://".toList) _ (by decide)]
  rw [replaceGo_match _ _ (by decide) tail]
  rw [replaceGo_missing _ _ '.' (by decide) tail hdot]

theorem replaceAll_mobile_shape (tail : List Char) (hdot : ∀ c ∈ tail, c ≠ '.') :
    replaceAllL ("twitter.com".toList) ("x.com".toList)
      ("https://mobile.".toList ++ ("twitter.com".toList ++ tail)) =
      "https://mobile.".toList ++ ("x.com".toList ++ tail) := by
  unfold replaceAllL
  rw [if_neg (by decide)]
  rw [replaceGo_append_clean _ _ ("https://mobile.".toList) _ (by decide)]
  rw [replaceGo_match _ _ (by decide) tail]
  rw [replaceGo_missing _ _ '.' (by decide) tail hdot]

/-- Claim C3 counterexample: the claim covers both sourced extractors, but
`twitter_media_downloader.py`'s `extract_tweet_id` rejects the supported
shape `https://x.com/i/web/status/<id>` (its path test requires the second
segment to be `status`, which here is `web`). -/
theorem C3_counterexample :
    TW.extract_tweet_id "https://x.com/i/web/status/1956686646272790863" =
      .error
        "Could not extract tweet ID from URL: https://x.com/i/web/status/1956686646272790863" := by
  decide

/-- Claim C3 (amended): for every word-character handle other than `status`,
the `x_` extractor returns `1956686646272790863` on all four supported URL
shapes, while the `twitter_media_downloader` extractor returns it on the
three `/user/status/` shapes and fails on `/i/web/status/`. -/
theorem C3_tweet_id_extraction (user : String)
    (hu1 : user.toList ≠ [])
    (hu2 : ∀ c ∈ user.toList, c.isAlphanum ∨ c = '_')
    (hu3 : pyLower user.toList ≠ "status".toList) :
    XT.extract_tweet_id ("https://x.com/" ++ user ++ "/status/1956686646272790863") =
        .ok "1956686646272790863"
    ∧ XT.extract_tweet_id
        ("https://twitter.com/" ++ user ++ "/status/1956686646272790863") =
        .ok "1956686646272790863"
    ∧ XT.extract_tweet_id
        ("https://mobile.twitter.com/" ++ user ++ "/status/1956686646272790863") =
        .ok "1956686646272790863"
    ∧ XT.extract_tweet_id "https://x.com/i/web/status/1956686646272790863" =
        .ok "1956686646272790863"
    ∧ TW.extract_tweet_id ("https://x.com/" ++ user ++ "/status/1956686646272790863") =
        .ok "1956686646272790863"
    ∧ TW.extract_tweet_id
        ("https://twitter.com/" ++ user ++ "/status/1956686646272790863") =
        .ok "1956686646272790863"
    ∧ TW.extract_tweet_id
        ("https://mobile.twitter.com/" ++ user ++ "/status/1956686646272790863") =
        .ok "1956686646272790863"
    ∧ isOkE (TW.extract_tweet_id "https://x.com/i/web/status/1956686646272790863") =
        false := by
  have hbenign : ∀ c ∈ user.toList, c ≠ '/' ∧ c ≠ '?' ∧ c ≠ '#' ∧ c ≠ '.' ∧ c ≠ ':' :=
    fun c hc => handleChar_benign c (hu2 c hc)
  have hmku : String.mk user.toList = user := rfl
  have hxt1 := XT.extract_user_status "x.com" user.toList (by decide) hu1 hu2 hu3
  have hxt2 := XT.extract_user_status "twitter.com" user.toList (by decide) hu1 hu2 hu3
  have hxt3 := XT.extract_user_status "mobile.twitter.com" user.toList (by decide)
    hu1 hu2 hu3
  rw [hmku] at hxt1 hxt2 hxt3
  rw [show ("https://" ++ "x.com" ++ "/" : String) = "https://x.com/" from rfl] at hxt1
  rw [show ("https://" ++ "twitter.com" ++ "/" : String) = "https://twitter.com/"
    from rfl] at hxt2
  rw [show ("https://" ++ "mobile.twitter.com" ++ "/" : String) =
    "https://mobile.twitter.com/" from rfl] at hxt3
  have hdot1 : ∀ c ∈ user.toList ++ "/status/1956686646272790863".toList, c ≠ '.' := by
    intro a ha
    rcases List.mem_append.mp ha with h | h
    · exact (hbenign a h).2.2.2.1
    · have hcon : ∀ x ∈ "/status/1956686646272790863".toList, x ≠ '.' := by decide
      exact hcon a h
  have hdot2 : ∀ c ∈ ('/' :: (user.toList ++ "/status/1956686646272790863".toList)),
      c ≠ '.' := by
    intro a ha
    rcases List.mem_cons.mp ha with h | h
    · rw [h]; decide
    · exact hdot1 a h
  have hshape : ∀ host2 : List Char,
      host2 ++ ('/' :: (user.toList ++ "/status/1956686646272790863".toList)) =
      host2 ++ ('/' :: (user.toList ++ ('/' :: ("status".toList ++
        '/' :: "1956686646272790863".toList)))) := by
    intro host2
    have : ("/status/1956686646272790863".toList : List Char) =
        '/' :: ("status".toList ++ '/' :: "1956686646272790863".toList) := by decide
    rw [this]
  have htw1 : TW.extract_tweet_id
      ("https://x.com/" ++ user ++ "/status/1956686646272790863") =
      .ok "1956686646272790863" := by
    apply TW.extract_shape _ ("x.com".toList) user.toList _ (by decide) hu1 hu2
    have hlist : ("https://x.com/" ++ user ++ "/status/1956686646272790863").toList =
        "https://x.com/".toList ++ (user.toList ++ "/status/1956686646272790863".toList) := by
      show ("https://x.com/" ++ user ++ "/status/1956686646272790863").data = _
      simp only [String.data_append, String.toList]
      simp [List.append_assoc]
    rw [hlist, replaceAll_x_shape _ hdot1]
    have : ("https://x.com/".toList : List Char) =
        "https://".toList ++ ("x.com".toList ++ ['/']) := by decide
    rw [this]
    simp only [List.append_assoc, List.cons_append, List.nil_append]
    rw [← hshape ("x.com".toList)]
  have htw2 : TW.extract_tweet_id
      ("https://twitter.com/" ++ user ++ "/status/1956686646272790863") =
      .ok "1956686646272790863" := by
    apply TW.extract_shape _ ("x.com".toList) user.toList _ (by decide) hu1 hu2
    have hlist : ("https://twitter.com/" ++ user ++ "/status/1956686646272790863").toList =
        "https://".toList ++ ("twitter.com".toList ++
          ('/' :: (user.toList ++ "/status/1956686646272790863".toList))) := by
      show ("https://twitter.com/" ++ user ++ "/status/1956686646272790863").data = _
      simp only [String.data_append, String.toList]
      simp [List.append_assoc]
    rw [hlist, replaceAll_twitter_shape _ hdot2]
    rw [hshape ("x.com".toList)]
  have htw3 : TW.extract_tweet_id
      ("https://mobile.twitter.com/" ++ user ++ "/status/1956686646272790863") =
      .ok "1956686646272790863" := by
    apply TW.extract_shape _ ("mobile.x.com".toList) user.toList _ (by decide) hu1 hu2
    have hlist : ("https://mobile.twitter.com/" ++ user ++
        "/status/1956686646272790863").toList =
        "https://mobile.".toList ++ ("twitter.com".toList ++
          ('/' :: (user.toList ++ "/status/1956686646272790863".toList))) := by
      show ("https://mobile.twitter.com/" ++ user ++
        "/status/1956686646272790863").data = _
      simp only [String.data_append, String.toList]
      simp [List.append_assoc]
    rw [hlist, replaceAll_mobile_shape _ hdot2]
    have : ("https://mobile.".toList : List Char) =
        "https://".toList ++ "mobile.".toList := by decide
    rw [this]
    have hmx : ("mobile.".toList : List Char) ++ ("x.com".toList ++
        ('/' :: (user.toList ++ "/status/1956686646272790863".toList))) =
        "mobile.x.com".toList ++
          ('/' :: (user.toList ++ "/status/1956686646272790863".toList)) := by
      have : ("mobile.x.com".toList : List Char) =
          "mobile.".toList ++ "x.com".toList := by decide
      rw [this, List.append_assoc]
    rw [List.append_assoc, hmx, hshape ("mobile.x.com".toList)]
  exact ⟨hxt1, hxt2, hxt3, by decide, htw1, htw2, htw3, by decide⟩

/-- Witness for C3 at the concrete handle `techdevnotes`. -/
theorem C3_tweet_id_extraction_witness :
    XT.extract_tweet_id "https://x.com/techdevnotes/status/1956686646272790863" =
        .ok "1956686646272790863"
    ∧ TW.extract_tweet_id
        "https://mobile.twitter.com/techdevnotes/status/1956686646272790863" =
        .ok "1956686646272790863" := by
  have h := C3_tweet_id_extraction "techdevnotes" (by decide) (by decide) (by decide)
  exact ⟨h.1, h.2.2.2.2.2.2.1⟩

/-! ### Media extraction: `gather_variants`, `filter_variants` (claims C6, C10) -/

/-- Substring test, Python's `pat in s`. -/
def containsSub (pat : List Char) : List Char → Bool
  | [] => pat.isEmpty
  | a :: l => startsWithL pat (a :: l) || containsSub pat l

/-- Python's `s.endswith(pat)`. -/
def endsWithL (pat l : List Char) : Bool :=
  startsWithL pat.reverse l.reverse

namespace XT

/-- Loop body of `_walk` for a `variants` array (lines 167-171): keep the
items that are dicts carrying a `src` or `url` key. -/
def directVariants (items : List JVal) : List VDict :=
  items.filterMap (fun it =>
    match it with
    | .jobj ifs =>
        if (dlookup ifs "src").isSome ∨ (dlookup ifs "url").isSome then some ifs
        else none
    | _ => none)

mutual

/-- `_walk` of `gather_variants` (lines 164-178): a dict contributes the
eligible items of its own `variants` array first, then the walk of its
values in insertion order; a list contributes the walk of its items. -/
def gatherJ : JVal → List VDict
  | .jobj fs =>
      (match dlookup fs "variants" with
       | some (.jarr items) => directVariants items
       | _ => []) ++ gatherObj fs
  | .jarr xs => gatherArr xs
  | _ => []

def gatherArr : List JVal → List VDict
  | [] => []
  | x :: xs => gatherJ x ++ gatherArr xs

def gatherObj : List (String × JVal) → List VDict
  | [] => []
  | (_, v) :: fs => gatherJ v ++ gatherObj fs

end

/-- The deduplication key `v.get('src') or v.get('url')` (line 185). -/
def variantKey (v : VDict) : JVal :=
  pyOr (dget v "src") (dget v "url")

/-- Deduplication loop of `gather_variants` (lines 181-190): drop candidates
whose key is falsy or already seen, keeping first occurrences in order. -/
def dedupVariants : List VDict → List JVal → List VDict
  | [], _ => []
  | v :: rest, seen =>
      let src := variantKey v
      if truthy src = false ∨ src ∈ seen then dedupVariants rest seen
      else v :: dedupVariants rest (src :: seen)

/-- `gather_variants` (lines 157-190). -/
def gather_variants (obj : JVal) : List VDict :=
  dedupVariants (gatherJ obj) []

/-- `filter_variants` (lines 193-212).  The `.lower()` of a non-string
`type` value would raise in Python; it is rendered as the empty string here
(no payload shape the code handles carries a non-string type), and
`src.endswith` is only applied to string sources for the same reason. -/
def filter_variants (variants : List VDict) (include_m3u8 : Bool) : List VDict :=
  variants.filterMap (fun v =>
    let src := pyOr (dget v "src") (dget v "url")
    if truthy src = false then none
    else
      let vtype : List Char :=
        match pyOr (dget v "type") (pyOr (dget v "content_type") (.jstr "")) with
        | .jstr s => pyLower s.toList
        | _ => []
      if containsSub ("mp4".toList) vtype ∨
          (include_m3u8 ∧ containsSub ("mpegurl".toList) vtype) then some v
      else
        match src with
        | .jstr s =>
            if endsWithL (".mp4".toList) s.toList then some v
            else if include_m3u8 ∧ (containsSub (".m3u8".toList) s.toList ∨
                containsSub ("mpegurl".toList) s.toList) then some v
            else none
        | _ => none)

def photosMsg : String := "No video found; the tweet appears to contain only photos."

def noMediaMsg : String := "No downloadable media variants found in the tweet JSON."

/-- `data.get(k)` on the fetched payload (the payloads the code fetches are
JSON objects; a non-object would raise in Python before this point). -/
def objGet : JVal → String → JVal
  | .jobj fs, k => dget fs k
  | _, _ => .jnull

/-- The media-selection stage of `download_from_tweet_url` (lines 340-368):
gather and filter variants, report the photos-only or generic error when
nothing survives, otherwise pick targets. -/
def select_targets (data : JVal) (download_all include_m3u8 : Bool) :
    Except String (List VDict) :=
  let variants := filter_variants (gather_variants data) include_m3u8
  if variants = [] then
    if truthy (objGet data "photos") then .error photosMsg
    else .error noMediaMsg
  else if download_all then .ok (sortByBitrate variants)
  else
    match pick_best_variant variants with
    | some best => .ok [best]
    | none => .error "Could not pick a media variant to download."

theorem dedupVariants_spec : ∀ (l : List VDict) (seen : List JVal),
    List.Nodup ((dedupVariants l seen).map variantKey)
    ∧ (∀ k ∈ (dedupVariants l seen).map variantKey, k ∉ seen ∧ truthy k = true)
    ∧ List.Sublist (dedupVariants l seen) l
  | [], _ => ⟨List.nodup_nil, fun k hk => absurd hk (List.not_mem_nil k), List.nil_sublist []⟩
  | v :: rest, seen => by
      by_cases hskip : truthy (variantKey v) = false ∨ variantKey v ∈ seen
      · have ih := dedupVariants_spec rest seen
        have heq : dedupVariants (v :: rest) seen = dedupVariants rest seen := by
          simp only [dedupVariants]
          rw [if_pos hskip]
        refine ⟨heq ▸ ih.1, heq ▸ ih.2.1, heq ▸ (ih.2.2.trans (List.sublist_cons_self v rest))⟩
      · have ih := dedupVariants_spec rest (variantKey v :: seen)
        have heq : dedupVariants (v :: rest) seen =
            v :: dedupVariants rest (variantKey v :: seen) := by
          simp only [dedupVariants]
          rw [if_neg hskip]
        push_neg at hskip
        refine ⟨?_, ?_, ?_⟩
        · rw [heq]
          simp only [List.map_cons, List.nodup_cons]
          refine ⟨fun hmem => ?_, ih.1⟩
          exact (ih.2.1 _ hmem).1 (List.mem_cons_self _ _)
        · rw [heq]
          intro k hk
          simp only [List.map_cons, List.mem_cons] at hk
          rcases hk with hk | hk
          · subst hk
            refine ⟨hskip.2, ?_⟩
            cases ht : truthy (variantKey v) with
            | true => rfl
            | false => exact absurd ht hskip.1
          · have := ih.2.1 k hk
            exact ⟨fun hmem => this.1 (List.mem_cons_of_mem _ hmem), this.2⟩
        · rw [heq]
          exact (ih.2.2).cons₂ v

end XT

/-- The record type of the scraper's media list (url, media kind, suggested
filename). -/
structure MediaRec where
  url : String
  kind : String
  filename : String
  deriving DecidableEq, Repr

namespace TS

/-- The deduplication stage closing `extract_media_urls_from_html`
(`twitter_scraper_downloader.py` lines 130-138): keep the first record for
each url, preserving order.  It is stated over an arbitrary scanned list;
the regex scan that produces the input list precedes it. -/
def dedup_media : List MediaRec → List String → List MediaRec
  | [], _ => []
  | m :: rest, seen =>
      if m.url ∈ seen then dedup_media rest seen
      else m :: dedup_media rest (m.url :: seen)

theorem dedup_media_spec : ∀ (l : List MediaRec) (seen : List String),
    List.Nodup ((dedup_media l seen).map MediaRec.url)
    ∧ (∀ u ∈ (dedup_media l seen).map MediaRec.url, u ∉ seen)
    ∧ List.Sublist (dedup_media l seen) l
  | [], _ => ⟨List.nodup_nil, fun u hu => absurd hu (List.not_mem_nil u), List.nil_sublist []⟩
  | m :: rest, seen => by
      by_cases hskip : m.url ∈ seen
      · have ih := dedup_media_spec rest seen
        have heq : dedup_media (m :: rest) seen = dedup_media rest seen := by
          simp only [dedup_media]
          rw [if_pos hskip]
        exact ⟨heq ▸ ih.1, heq ▸ ih.2.1,
          heq ▸ (ih.2.2.trans (List.sublist_cons_self m rest))⟩
      · have ih := dedup_media_spec rest (m.url :: seen)
        have heq : dedup_media (m :: rest) seen =
            m :: dedup_media rest (m.url :: seen) := by
          simp only [dedup_media]
          rw [if_neg hskip]
        refine ⟨?_, ?_, ?_⟩
        · rw [heq]
          simp only [List.map_cons, List.nodup_cons]
          exact ⟨fun hmem => (ih.2.1 _ hmem) (List.mem_cons_self _ _), ih.1⟩
        · rw [heq]
          intro u hu
          simp only [List.map_cons, List.mem_cons] at hu
          rcases hu with hu | hu
          · subst hu; exact hskip
          · exact fun hmem => (ih.2.1 u hu) (List.mem_cons_of_mem _ hmem)
        · rw [heq]
          exact (ih.2.2).cons₂ m

end TS

theorem XT.dedupVariants_first : ∀ (l : List VDict) (seen : List JVal) (k : JVal),
    truthy k = true → k ∉ seen →
    (XT.dedupVariants l seen).filter (fun v => XT.variantKey v == k) =
      (l.filter (fun v => XT.variantKey v == k)).take 1
  | [], _, _, _, _ => rfl
  | v :: rest, seen, k, hk, hks => by
      by_cases hskip : truthy (XT.variantKey v) = false ∨ XT.variantKey v ∈ seen
      · have heq : XT.dedupVariants (v :: rest) seen = XT.dedupVariants rest seen := by
          simp only [XT.dedupVariants]
          rw [if_pos hskip]
        have hvk : (XT.variantKey v == k) = false := by
          simp only [beq_eq_false_iff_ne, ne_eq]
          intro he
          rcases hskip with h | h
          · rw [he] at h
            rw [hk] at h
            cases h
          · exact hks (he ▸ h)
        rw [heq, XT.dedupVariants_first rest seen k hk hks]
        simp [List.filter_cons, hvk]
      · have heq : XT.dedupVariants (v :: rest) seen =
            v :: XT.dedupVariants rest (XT.variantKey v :: seen) := by
          simp only [XT.dedupVariants]
          rw [if_neg hskip]
        rw [heq]
        by_cases hvk : (XT.variantKey v == k) = true
        · have hkeq : XT.variantKey v = k := by simpa using hvk
          have hrest : (XT.dedupVariants rest (XT.variantKey v :: seen)).filter
              (fun w => XT.variantKey w == k) = [] := by
            rw [List.filter_eq_nil_iff]
            intro w hw
            have := (XT.dedupVariants_spec rest (XT.variantKey v :: seen)).2.1
              (XT.variantKey w) (List.mem_map_of_mem XT.variantKey hw)
            simp only [beq_eq_false_iff_ne, ne_eq, Bool.not_eq_true, beq_eq_false_iff_ne]
            intro he
            have hkk : XT.variantKey w = k := by simpa using he
            exact this.1 (by rw [hkk, ← hkeq]; exact List.mem_cons_self _ _)
          simp only [List.filter_cons, hvk, if_true, hrest]
          rfl
        · have hvk2 : (XT.variantKey v == k) = false := by
            simpa using hvk
          have hknotin : k ∉ XT.variantKey v :: seen := by
            intro hmem
            rcases List.mem_cons.mp hmem with he | he
            · rw [he] at hvk2
              simp at hvk2
            · exact hks he
          have ihr := XT.dedupVariants_first rest (XT.variantKey v :: seen) k hk hknotin
          simp [List.filter_cons, hvk2, ihr]

theorem TS.dedup_media_first : ∀ (l : List MediaRec) (seen : List String) (u : String),
    u ∉ seen →
    (TS.dedup_media l seen).filter (fun m => m.url == u) =
      (l.filter (fun m => m.url == u)).take 1
  | [], _, _, _ => rfl
  | m :: rest, seen, u, hus => by
      by_cases hskip : m.url ∈ seen
      · have heq : TS.dedup_media (m :: rest) seen = TS.dedup_media rest seen := by
          simp only [TS.dedup_media]
          rw [if_pos hskip]
        have hmu : (m.url == u) = false := by
          simp only [beq_eq_false_iff_ne, ne_eq]
          intro he
          exact hus (he ▸ hskip)
        rw [heq, TS.dedup_media_first rest seen u hus]
        simp [List.filter_cons, hmu]
      · have heq : TS.dedup_media (m :: rest) seen =
            m :: TS.dedup_media rest (m.url :: seen) := by
          simp only [TS.dedup_media]
          rw [if_neg hskip]
        rw [heq]
        by_cases hmu : (m.url == u) = true
        · have hueq : m.url = u := by simpa using hmu
          have hrest : (TS.dedup_media rest (m.url :: seen)).filter
              (fun w => w.url == u) = [] := by
            rw [List.filter_eq_nil_iff]
            intro w hw
            have := (TS.dedup_media_spec rest (m.url :: seen)).2.1
              w.url (List.mem_map_of_mem MediaRec.url hw)
            simp only [Bool.not_eq_true, beq_eq_false_iff_ne, ne_eq]
            intro he
            exact this (by rw [he, ← hueq]; exact List.mem_cons_self _ _)
          simp only [List.filter_cons, hmu, if_true, hrest]
          rfl
        · have hmu2 : (m.url == u) = false := by simpa using hmu
          have hunotin : u ∉ m.url :: seen := by
            intro hmem
            rcases List.mem_cons.mp hmem with he | he
            · rw [he] at hmu2
              simp at hmu2
            · exact hus he
          have ihr := TS.dedup_media_first rest (m.url :: seen) u hunotin
          simp [List.filter_cons, hmu2, ihr]

/-- Claim C10: every media list produced by extraction is duplicate-free.
`gather_variants` output has pairwise-distinct (and truthy) `src`/`url`
keys, is a sublist of the raw walk (so discovery order is preserved), and
for every key retains exactly the first matching candidate; the scraper's
deduplication stage does the same by record url. -/
theorem C10_extraction_dedup (data : JVal) (ms : List MediaRec) :
    List.Nodup ((XT.gather_variants data).map XT.variantKey)
    ∧ List.Sublist (XT.gather_variants data) (XT.gatherJ data)
    ∧ (∀ k ∈ (XT.gather_variants data).map XT.variantKey, truthy k = true)
    ∧ (∀ k : JVal, truthy k = true →
        (XT.gather_variants data).filter (fun v => XT.variantKey v == k) =
          ((XT.gatherJ data).filter (fun v => XT.variantKey v == k)).take 1)
    ∧ List.Nodup ((TS.dedup_media ms []).map MediaRec.url)
    ∧ List.Sublist (TS.dedup_media ms []) ms
    ∧ (∀ u : String, (TS.dedup_media ms []).filter (fun m => m.url == u) =
        (ms.filter (fun m => m.url == u)).take 1) := by
  have h1 := XT.dedupVariants_spec (XT.gatherJ data) []
  have h2 := TS.dedup_media_spec ms []
  refine ⟨h1.1, h1.2.2, fun k hk => (h1.2.1 k hk).2, ?_, h2.1, h2.2.2, ?_⟩
  · intro k hk
    exact XT.dedupVariants_first (XT.gatherJ data) [] k hk (List.not_mem_nil k)
  · intro u
    exact TS.dedup_media_first ms [] u (List.not_mem_nil u)

/-- A photo-only example payload (a `photos` array, no `variants`). -/
def photoPayload : VDict :=
  [("text", .jstr "hello"),
   ("photos", .jarr [.jobj [("url", .jstr "https://pbs.twimg.com/media/a.jpg")]])]

/-- Claim C6: when no downloadable variants survive gathering and filtering,
the run fails with the distinguishing photos-only message exactly when the
payload's `photos` field is truthy, and with the generic no-media message
otherwise; for an array-valued `photos` field, truthy means nonempty. -/
theorem C6_no_media_messages (fs : VDict) (dall m3u8 : Bool)
    (hempty : XT.filter_variants (XT.gather_variants (.jobj fs)) m3u8 = []) :
    XT.select_targets (.jobj fs) dall m3u8 =
      .error (if truthy (dget fs "photos") then XT.photosMsg else XT.noMediaMsg)
    ∧ (∀ ps, dget fs "photos" = .jarr ps → (truthy (.jarr ps) = !ps.isEmpty)) := by
  constructor
  · by_cases hp : truthy (dget fs "photos") = true
    · simp [XT.select_targets, hempty, XT.objGet, hp]
    · simp only [Bool.not_eq_true] at hp
      simp [XT.select_targets, hempty, XT.objGet, hp]
  · intro ps hps
    cases ps <;> simp [truthy]

/-- Witness for C6 at the concrete photo-only payload. -/
theorem C6_no_media_messages_witness :
    XT.select_targets (.jobj photoPayload) false false = .error XT.photosMsg := by
  have h := C6_no_media_messages photoPayload false false (by decide)
  have hp : truthy (dget photoPayload "photos") = true := by decide
  rw [h.1, if_pos hp]

/-! ### Filesystem model (claims C7, C8) -/

/-- File contents as byte lists. -/
abbrev Content := List Nat

/-- A filesystem: paths to contents. -/
def FSys := String → Option Content

def FSys.set (fs : FSys) (p : String) (c : Option Content) : FSys :=
  fun q => if q = p then c else fs q

/-- States passed through while appending `chunks` to a file at `p` that
currently holds `acc`. -/
def writeGo (fs : FSys) (p : String) (acc : Content) : List Content → List FSys
  | [] => []
  | c :: rest => fs.set p (some (acc ++ c)) :: writeGo fs p (acc ++ c) rest

/-- The filesystem states while a file at `p` is written chunk by chunk:
after `open` truncates it, and after each chunk. -/
def writeStates (fs : FSys) (p : String) (chunks : List Content) : List FSys :=
  fs.set p (some []) :: writeGo fs p [] chunks

theorem writeGo_shape (fs : FSys) (p : String) :
    ∀ (chunks : List Content) (acc : Content), ∀ s ∈ writeGo fs p acc chunks,
      ∃ cont, s = fs.set p (some cont)
  | [], _, s, hs => absurd hs (List.not_mem_nil s)
  | c :: rest, acc, s, hs => by
      rcases List.mem_cons.mp hs with h | h
      · exact ⟨acc ++ c, h⟩
      · exact writeGo_shape fs p rest (acc ++ c) s h

theorem partialStates_shape (fs : FSys) (p : String) (chunks : List Content) :
    ∀ s ∈ writeStates fs p chunks, ∃ cont, s = fs.set p (some cont) := by
  intro s hs
  rcases List.mem_cons.mp hs with h | h
  · exact ⟨[], h⟩
  · exact writeGo_shape fs p chunks [] s h

namespace XT

/-- `stream_download` (lines 243-284) as a state transformer together with
its trace of intermediate filesystem states.  An existing destination
without `overwrite` raises before anything is written; otherwise the body
(the chunk sequence the response yields) is streamed into
`dest.with_suffix(dest.suffix + ".part")` — which appends `.part` to the
name — and the temporary is renamed onto `dest` only after the last chunk. -/
def stream_download (fs : FSys) (dest : String) (chunks : List Content)
    (overwrite : Bool) : List FSys × Except String Unit × FSys :=
  if (fs dest).isSome ∧ overwrite = false then
    ([], .error ("Destination file exists: " ++ dest ++ " (use --force to overwrite)"), fs)
  else
    let tmp := dest ++ ".part"
    let states := writeStates fs tmp chunks
    let afterWrite := fs.set tmp (some chunks.join)
    let final := (afterWrite.set tmp none).set dest (some chunks.join)
    (states ++ [final], .ok (), final)

end XT

namespace TW

/-- The write behaviour of `download_media` (`twitter_media_downloader.py`
lines 207-240): stream the chunks directly into the destination file, with
no existence check and no temporary file. -/
def download_media_write (fs : FSys) (filepath : String) (chunks : List Content) :
    List FSys × FSys :=
  (writeStates fs filepath chunks, fs.set filepath (some chunks.join))

end TW

/-- A singleton filesystem holding one file `out.mp4`. -/
def exFS1 : FSys := fun p => if p = "out.mp4" then some [7] else none

/-- The empty filesystem. -/
def exFS0 : FSys := fun _ => none

/-- Claim C7: on an already-existing destination, `stream_download` without
`--force` raises before writing anything (empty write trace, filesystem
unchanged, the documented error), while with `--force` it succeeds and the
destination ends up overwritten with the downloaded body. -/
theorem C7_existing_destination (fs : FSys) (dest : String) (chunks : List Content)
    (hex : (fs dest).isSome = true) :
    (XT.stream_download fs dest chunks false).1 = []
    ∧ (XT.stream_download fs dest chunks false).2.1 =
        .error ("Destination file exists: " ++ dest ++ " (use --force to overwrite)")
    ∧ (XT.stream_download fs dest chunks false).2.2 = fs
    ∧ (XT.stream_download fs dest chunks true).2.1 = .ok ()
    ∧ (XT.stream_download fs dest chunks true).2.2 dest = some chunks.join := by
  refine ⟨?_, ?_, ?_, ?_, ?_⟩
  · simp [XT.stream_download, hex]
  · simp [XT.stream_download, hex]
  · simp [XT.stream_download, hex]
  · simp [XT.stream_download]
  · simp [XT.stream_download, FSys.set]

/-- Witness for C7: a filesystem with an existing `out.mp4`. -/
theorem C7_existing_destination_witness :
    (XT.stream_download exFS1 "out.mp4" [[1, 2]] false).2.1 =
      .error "Destination file exists: out.mp4 (use --force to overwrite)"
    ∧ (XT.stream_download exFS1 "out.mp4" [[1, 2]] true).2.2 "out.mp4" =
      some [1, 2] := by
  have h := C7_existing_destination exFS1 "out.mp4" [[1, 2]] (by decide)
  exact ⟨h.2.1, h.2.2.2.2⟩

/-- Claim C8: `stream_download` of the syndication variant writes to a
`.part` temporary and renames only after the whole body is read, so every
state of its trace shows the destination either with its original content
or with the complete body; `download_media` of the GraphQL variant writes
the destination directly, and its trace passes through a state where the
destination holds exactly the first chunk, which is not the full body when
a further nonempty chunk follows (a truncated file under interruption). -/
theorem C8_temp_file_rename (fs : FSys) (dest fp : String) (chunks : List Content)
    (ov : Bool) (c1 c2 : Content) (rest : List Content) (hc2 : c2 ≠ []) :
    (∀ s ∈ (XT.stream_download fs dest chunks ov).1,
        s dest = fs dest ∨ s dest = some chunks.join)
    ∧ ((TW.download_media_write fs fp (c1 :: c2 :: rest)).1.map
        (fun s => s fp)).getD 1 none = some c1
    ∧ some c1 ≠ some ((c1 :: c2 :: rest) : List Content).join := by
  refine ⟨?_, ?_, ?_⟩
  · intro s hs
    by_cases hguard : (fs dest).isSome = true ∧ ov = false
    · simp only [XT.stream_download, if_pos hguard] at hs
      exact absurd hs (List.not_mem_nil s)
    · simp only [XT.stream_download, if_neg hguard] at hs
      have htmp : dest ≠ dest ++ ".part" := by
        intro he
        have hlen := congrArg String.length he
        rw [String.length_append] at hlen
        have h5 : (".part").length = 5 := rfl
        omega
      rcases List.mem_append.mp hs with h | h
      · obtain ⟨cont, rfl⟩ := partialStates_shape fs _ chunks s h
        left
        simp [FSys.set, htmp]
      · have hsf : s = ((fs.set (dest ++ ".part") (some chunks.join)).set
            (dest ++ ".part") none).set dest (some chunks.join) := by
          simpa using h
        right
        rw [hsf]
        simp [FSys.set]
  · simp [TW.download_media_write, writeStates, writeGo, FSys.set]
  · intro he
    injection he with he
    have hlen := congrArg List.length he
    simp only [List.join_cons, List.length_append] at hlen
    have hpos : 0 < c2.length := List.length_pos.mpr hc2
    omega

/-- Witness for C8 at a two-chunk body on the empty filesystem. -/
theorem C8_temp_file_rename_witness :
    ((TW.download_media_write exFS0 "gif.mp4" [[9], [8]]).1.map
        (fun s => s "gif.mp4")).getD 1 none = some [9]
    ∧ some ([9] : Content) ≠ some (([[9], [8]] : List Content).join) := by
  have h := C8_temp_file_rename exFS0 "v.mp4" "gif.mp4" [[1]] false [9] [8] []
    (by decide)
  exact ⟨h.2.1, h.2.2⟩

/-! ### Output path resolution (claim C2) -/

namespace XT

/-- `pathlib.Path.name`: the final nonempty path component. -/
def pathName (p : List Char) : List Char :=
  (((splitChar '/' p).filter (fun seg => seg ≠ [])).getLastD [])

/-- `pathlib.Path.suffix`: the part of the name from its last dot, unless
that dot is the first or the last character of the name. -/
def pySuffix (p : List Char) : List Char :=
  let name := pathName p
  let after := (name.reverse.takeWhile (fun c => c ≠ '.')).reverse
  if after.length = name.length then []
  else if after.length = 0 then []
  else if name.length - after.length - 1 = 0 then []
  else '.' :: after

/-- Python `str()` of a bitrate value interpolated into the filename tag
(the payloads carry integer or string bitrates; containers never reach this
point and are rendered as the empty string). -/
def pyStr : JVal → String
  | .jint n => toString n
  | .jstr s => s
  | .jbool b => if b then "True" else "False"
  | .jnull => "None"
  | _ => ""

/-- The inferred extension (lines 298-312): `.m3u8` for an HLS path, else
the suffix of the URL path (of the whole source string when the parsed path
is empty), else `.mp4`. -/
def derivedExt (v : VDict) : String :=
  let src : String :=
    match pyOr (dget v "src") (pyOr (dget v "url") (.jstr "")) with
    | .jstr s => s
    | _ => ""
  let parsedPath := (urlsplitL src.toList).path
  let clean_path := if parsedPath ≠ [] then parsedPath else src.toList
  if endsWithL (".m3u8".toList) clean_path then ".m3u8"
  else
    let suf := pySuffix clean_path
    if suf ≠ [] then String.mk suf else ".mp4"

/-- The disambiguation tag (lines 314-315): `_<bitrate>kbps` for a truthy
bitrate, `_<index>` for a nonzero index, nothing otherwise. -/
def derivedTag (v : VDict) (index : Nat) : String :=
  let bitrate := pyOr (dget v "bitrate") (dget v "bit_rate")
  if truthy bitrate then "_" ++ pyStr bitrate ++ "kbps"
  else if index ≠ 0 then "_" ++ toString index
  else ""

/-- The derived filename `f"{tweet_id}{quality_tag}{ext}"`. -/
def derivedName (tweet_id : String) (v : VDict) (index : Nat) : String :=
  tweet_id ++ derivedTag v index ++ derivedExt v

/-- `resolve_output_path` (lines 296-328).  The filesystem is an oracle pair
(`existsD`, `isDir`); `/`-joins assume a base without a trailing slash,
matching `pathlib` on such bases. -/
def resolve_output_path (existsD isDir : String → Bool)
    (base_output : Option String) (tweet_id : String) (v : VDict)
    (index : Nat) : String :=
  let fname := derivedName tweet_id v index
  match base_output with
  | none => fname
  | some b =>
      if existsD b ∧ isDir b then b ++ "/" ++ fname
      else if pySuffix b.toList ≠ [] then b
      else b ++ "/" ++ fname

/-- The variant of the amended claim's particular case: no bitrate, an
`.mp4` URL. -/
def plainMp4Variant : VDict :=
  [("url", .jstr "https://video.twimg.com/tweet_video/abc.mp4"),
   ("type", .jstr "video/mp4")]

end XT

/-- Claim C2 counterexample: with no `-o` and a bitrate-1000 variant the
resolved destination is `<id>_1000kbps.mp4`, not `<id>.mp4` as claimed. -/
theorem C2_counterexample :
    XT.resolve_output_path (fun _ => false) (fun _ => false) none
      "1956686646272790863"
      [("bitrate", .jint 1000), ("url", .jstr "https://video.twimg.com/vid/b.mp4")]
      0 = "1956686646272790863_1000kbps.mp4"
    ∧ ("1956686646272790863_1000kbps.mp4" : String) ≠
        "1956686646272790863.mp4" := by
  refine ⟨?_, by decide⟩
  rfl

/-- Claim C2 (corrected): with no `-o` the destination is the derived
filename `<id><tag><ext>` in the current directory, where the tag carries
the variant's bitrate (or the positional index when nonzero) and the
extension is inferred from the variant URL — in particular `<id>.mp4` for a
first variant without bitrate whose URL ends in `.mp4`; `-o` naming an
existing directory places the derived filename inside it; otherwise `-o`
with a nonempty suffix is used verbatim. -/
theorem C2_output_path (existsD isDir : String → Bool) (b tid : String)
    (v : VDict) (idx : Nat) :
    XT.resolve_output_path existsD isDir none tid v idx = XT.derivedName tid v idx
    ∧ (existsD b = true → isDir b = true →
        XT.resolve_output_path existsD isDir (some b) tid v idx =
          b ++ "/" ++ XT.derivedName tid v idx)
    ∧ (¬(existsD b = true ∧ isDir b = true) → XT.pySuffix b.toList ≠ [] →
        XT.resolve_output_path existsD isDir (some b) tid v idx = b)
    ∧ XT.derivedName tid XT.plainMp4Variant 0 = tid ++ ".mp4" := by
  refine ⟨rfl, ?_, ?_, ?_⟩
  · intro he hd
    simp [XT.resolve_output_path, he, hd]
  · intro hnd hsuf
    simp [XT.resolve_output_path, hnd]
    intro hcon
    exact absurd hcon hsuf
  · show tid ++ XT.derivedTag XT.plainMp4Variant 0 ++ XT.derivedExt XT.plainMp4Variant =
      tid ++ ".mp4"
    rw [show XT.derivedTag XT.plainMp4Variant 0 = "" from rfl]
    rw [show XT.derivedExt XT.plainMp4Variant = ".mp4" from rfl]
    rw [show (tid ++ "" : String) = tid from by simp]

/-- Witness for C2 with a directory oracle recognising `media` and a
file-suffixed `-o` value. -/
theorem C2_output_path_witness :
    XT.resolve_output_path (fun p => p = "media") (fun p => p = "media")
      (some "media") "1956686646272790863" XT.plainMp4Variant 0 =
      "media/1956686646272790863.mp4"
    ∧ XT.resolve_output_path (fun _ => false) (fun _ => false)
      (some "clip.mp4") "1956686646272790863" XT.plainMp4Variant 0 = "clip.mp4" := by
  have h1 := C2_output_path (fun p => p = "media") (fun p => p = "media")
    "media" "1956686646272790863" XT.plainMp4Variant 0
  have h2 := C2_output_path (fun _ => false) (fun _ => false)
    "clip.mp4" "1956686646272790863" XT.plainMp4Variant 0
  constructor
  · have hstep := h1.2.1 (by decide) (by decide)
    rw [hstep, h1.2.2.2]
    rfl
  · have hstep := h2.2.2.1 (by simp) (by decide)
    rw [hstep]

/-! ### Metadata fetching (claim C5) -/

namespace XT

/-- The three syndication URL permutations (lines 37-41), instantiated. -/
def SYNDICATION_URLS (tid : String) : List String :=
  ["https://cdn.syndication.twimg.com/widgets/tweet?id=" ++ tid,
   "https://cdn.syndication.twimg.com/widgets/tweet?id=" ++ tid ++ "&lang=en",
   "https://cdn.syndication.twimg.com/widgets/tweet?dnt=false&id=" ++ tid ++ "&lang=en"]

def FXTWITTER_API (tid : String) : String :=
  "https://api.fxtwitter.com/status/" ++ tid

def VXTWITTER_API (tid : String) : String :=
  "https://api.vxtwitter.com/status/" ++ tid

/-- A network oracle: what `http_get_json` yields per URL — parsed JSON, or
the `DownloadError` that an HTTP or JSON-parse failure raises. -/
def Oracle := String → Except String JVal

/-- Sequential fallback over a URL list (the loop shape of
`try_fetch_syndication_json` and `try_fetch_third_party_json`): try each
URL, return at the first success, swallowing failures; also records the
URLs attempted. -/
def tryEach (o : Oracle) : List String → List String × Option JVal
  | [] => ([], none)
  | u :: us =>
      match o u with
      | .ok d => ([u], some d)
      | .error _ =>
          let r := tryEach o us
          (u :: r.1, r.2)

/-- `try_fetch_syndication_json` (lines 130-138). -/
def try_fetch_syndication_json (o : Oracle) (tid : String) :
    List String × Option JVal :=
  tryEach o (SYNDICATION_URLS tid)

/-- The FX/VX unwrapping (lines 149-153): `data['tweet']` when present and a
dict, else the data itself. -/
def unwrapTweet (d : JVal) : JVal :=
  match d with
  | .jobj fs =>
      match dlookup fs "tweet" with
      | some (.jobj tfs) => .jobj tfs
      | _ => d
  | _ => d

/-- `try_fetch_third_party_json` (lines 141-154): FXTwitter then VXTwitter,
unwrapping the successful payload. -/
def try_fetch_third_party_json (o : Oracle) (tid : String) :
    List String × Option JVal :=
  let r := tryEach o [FXTWITTER_API tid, VXTWITTER_API tid]
  (r.1, r.2.map unwrapTweet)

def metadataError : String := "Could not fetch tweet metadata from public endpoints."

/-- The metadata-fetch phase of `download_from_tweet_url` (lines 331-338):
syndication first, then the third-party helpers, and the terminal error on
exhaustion. -/
def fetch_metadata (o : Oracle) (tid : String) : List String × Except String JVal :=
  let r1 := try_fetch_syndication_json o tid
  match r1.2 with
  | some d => (r1.1, .ok d)
  | none =>
      let r2 := try_fetch_third_party_json o tid
      match r2.2 with
      | some d => (r1.1 ++ r2.1, .ok d)
      | none => (r1.1 ++ r2.1, .error metadataError)

/-- The five endpoints in the order tried. -/
def endpointUrls (tid : String) : List String :=
  SYNDICATION_URLS tid ++ [FXTWITTER_API tid, VXTWITTER_API tid]

theorem tryEach_all_fail (o : Oracle) :
    ∀ us : List String, (∀ u ∈ us, isOkE (o u) = false) →
      tryEach o us = (us, none)
  | [], _ => rfl
  | u :: us, h => by
      have hu := h u (List.mem_cons_self u us)
      have ih := tryEach_all_fail o us (fun w hw => h w (List.mem_cons_of_mem u hw))
      cases ho : o u with
      | ok d => rw [ho] at hu; simp [isOkE] at hu
      | error e => simp [tryEach, ho, ih]

theorem tryEach_first_ok (o : Oracle) (d : JVal) :
    ∀ (us : List String) (k : Nat), k < us.length →
      (∀ i, i < k → isOkE (o (us.getD i "")) = false) →
      o (us.getD k "") = .ok d →
      tryEach o us = (us.take (k + 1), some d)
  | [], k, hk, _, _ => by simp at hk
  | u :: us, 0, _, _, hok => by
      simp only [List.getD_cons_zero] at hok
      simp [tryEach, hok]
  | u :: us, k + 1, hk, hfail, hok => by
      have hu := hfail 0 (Nat.succ_pos k)
      simp only [List.getD_cons_zero] at hu
      have ih := tryEach_first_ok o d us k (Nat.lt_of_succ_lt_succ hk)
        (fun i hi => by
          have := hfail (i + 1) (Nat.succ_lt_succ hi)
          simpa using this)
        (by simpa using hok)
      cases ho : o u with
      | ok d2 => rw [ho] at hu; simp [isOkE] at hu
      | error e => simp [tryEach, ho, ih]

end XT

/-- Claim C5: metadata fetching tries the three syndication permutations,
then fxtwitter, then vxtwitter, in that fixed order; each failure is
swallowed and the next endpoint tried; the first success stops the chain
(third-party payloads unwrapped from their `tweet` envelope); only when all
five endpoints fail does the phase end with the terminal
could-not-fetch-metadata error. -/
theorem C5_endpoint_fallback (o : XT.Oracle) (tid : String) :
    XT.endpointUrls tid =
      [XT.SYNDICATION_URLS tid |>.getD 0 "", XT.SYNDICATION_URLS tid |>.getD 1 "",
       XT.SYNDICATION_URLS tid |>.getD 2 "", XT.FXTWITTER_API tid, XT.VXTWITTER_API tid]
    ∧ ((∀ u ∈ XT.endpointUrls tid, isOkE (o u) = false) →
        XT.fetch_metadata o tid = (XT.endpointUrls tid, .error XT.metadataError))
    ∧ (∀ k, k < 3 →
        (∀ i, i < k → isOkE (o ((XT.endpointUrls tid).getD i "")) = false) →
        ∀ d, o ((XT.endpointUrls tid).getD k "") = .ok d →
        XT.fetch_metadata o tid = ((XT.endpointUrls tid).take (k + 1), .ok d))
    ∧ (∀ k, 3 ≤ k → k < 5 →
        (∀ i, i < k → isOkE (o ((XT.endpointUrls tid).getD i "")) = false) →
        ∀ d, o ((XT.endpointUrls tid).getD k "") = .ok d →
        XT.fetch_metadata o tid =
          ((XT.endpointUrls tid).take (k + 1), .ok (XT.unwrapTweet d))) := by
  refine ⟨rfl, ?_, ?_, ?_⟩
  · intro hall
    have hs : XT.tryEach o (XT.SYNDICATION_URLS tid) = (XT.SYNDICATION_URLS tid, none) :=
      XT.tryEach_all_fail o _ (fun u hu => hall u
        (List.mem_append_left _ hu))
    have ht : XT.tryEach o [XT.FXTWITTER_API tid, XT.VXTWITTER_API tid] =
        ([XT.FXTWITTER_API tid, XT.VXTWITTER_API tid], none) :=
      XT.tryEach_all_fail o _ (fun u hu => hall u
        (List.mem_append_right _ hu))
    simp [XT.fetch_metadata, XT.try_fetch_syndication_json,
      XT.try_fetch_third_party_json, hs, ht, XT.endpointUrls]
  · intro k hk hfail d hok
    have hk3 : k < (XT.SYNDICATION_URLS tid).length := by
      simpa [XT.SYNDICATION_URLS] using hk
    have hgetd : ∀ i, i < 3 →
        (XT.endpointUrls tid).getD i "" = (XT.SYNDICATION_URLS tid).getD i "" := by
      intro i hi
      have hlen : i < (XT.SYNDICATION_URLS tid).length := by
        simpa [XT.SYNDICATION_URLS] using hi
      unfold XT.endpointUrls
      rw [List.getD_eq_getElem?_getD, List.getElem?_append_left hlen,
        ← List.getD_eq_getElem?_getD]
    have hs : XT.tryEach o (XT.SYNDICATION_URLS tid) =
        ((XT.SYNDICATION_URLS tid).take (k + 1), some d) :=
      XT.tryEach_first_ok o d _ k hk3
        (fun i hi => by
          rw [← hgetd i (lt_trans hi hk)]
          exact hfail i hi)
        (by rw [← hgetd k hk]; exact hok)
    have htake : (XT.endpointUrls tid).take (k + 1) =
        (XT.SYNDICATION_URLS tid).take (k + 1) := by
      have : k + 1 ≤ (XT.SYNDICATION_URLS tid).length := by
        simp [XT.SYNDICATION_URLS]
        omega
      simp [XT.endpointUrls, List.take_append_of_le_length this]
    simp [XT.fetch_metadata, XT.try_fetch_syndication_json, hs, htake]
  · intro k hk3 hk5 hfail d hok
    have hgetd : ∀ i, i < 3 →
        (XT.endpointUrls tid).getD i "" = (XT.SYNDICATION_URLS tid).getD i "" := by
      intro i hi
      have hlen : i < (XT.SYNDICATION_URLS tid).length := by
        simpa [XT.SYNDICATION_URLS] using hi
      unfold XT.endpointUrls
      rw [List.getD_eq_getElem?_getD, List.getElem?_append_left hlen,
        ← List.getD_eq_getElem?_getD]
    have h0 := hfail 0 (by omega)
    have h1 := hfail 1 (by omega)
    have h2 := hfail 2 (by omega)
    rw [hgetd 0 (by omega)] at h0
    rw [hgetd 1 (by omega)] at h1
    rw [hgetd 2 (by omega)] at h2
    simp only [XT.SYNDICATION_URLS, List.getD_cons_zero, List.getD_cons_succ] at h0 h1 h2
    have hsall : ∀ u ∈ XT.SYNDICATION_URLS tid, isOkE (o u) = false := by
      intro u hu
      simp only [XT.SYNDICATION_URLS, List.mem_cons, List.not_mem_nil, or_false] at hu
      rcases hu with h | h | h <;> rw [h]
      · exact h0
      · exact h1
      · exact h2
    have hsynd : XT.tryEach o (XT.SYNDICATION_URLS tid) =
        (XT.SYNDICATION_URLS tid, none) := XT.tryEach_all_fail o _ hsall
    have hk34 : k = 3 ∨ k = 4 := by omega
    rcases hk34 with rfl | rfl
    · have hfx : o (XT.FXTWITTER_API tid) = .ok d := by
        have : (XT.endpointUrls tid).getD 3 "" = XT.FXTWITTER_API tid := by
          simp [XT.endpointUrls, XT.SYNDICATION_URLS]
        rw [this] at hok
        exact hok
      have htp : XT.tryEach o [XT.FXTWITTER_API tid, XT.VXTWITTER_API tid] =
          ([XT.FXTWITTER_API tid], some d) := by
        simp [XT.tryEach, hfx]
      have htake : (XT.endpointUrls tid).take 4 =
          XT.SYNDICATION_URLS tid ++ [XT.FXTWITTER_API tid] := by
        simp [XT.endpointUrls, XT.SYNDICATION_URLS]
      simp [XT.fetch_metadata, XT.try_fetch_syndication_json,
        XT.try_fetch_third_party_json, hsynd, htp, htake]
    · have h3 := hfail 3 (by omega)
      have hfx : isOkE (o (XT.FXTWITTER_API tid)) = false := by
        have : (XT.endpointUrls tid).getD 3 "" = XT.FXTWITTER_API tid := by
          simp [XT.endpointUrls, XT.SYNDICATION_URLS]
        rw [this] at h3
        exact h3
      have hvx : o (XT.VXTWITTER_API tid) = .ok d := by
        have : (XT.endpointUrls tid).getD 4 "" = XT.VXTWITTER_API tid := by
          simp [XT.endpointUrls, XT.SYNDICATION_URLS]
        rw [this] at hok
        exact hok
      have hfx2 : ∃ e, o (XT.FXTWITTER_API tid) = .error e := by
        cases ho : o (XT.FXTWITTER_API tid) with
        | ok d2 => rw [ho] at hfx; simp [isOkE] at hfx
        | error e => exact ⟨e, rfl⟩
      obtain ⟨e, he⟩ := hfx2
      have htp : XT.tryEach o [XT.FXTWITTER_API tid, XT.VXTWITTER_API tid] =
          ([XT.FXTWITTER_API tid, XT.VXTWITTER_API tid], some d) := by
        simp [XT.tryEach, he, hvx]
      have htake : (XT.endpointUrls tid).take 5 =
          XT.SYNDICATION_URLS tid ++ [XT.FXTWITTER_API tid, XT.VXTWITTER_API tid] := by
        simp [XT.endpointUrls, XT.SYNDICATION_URLS]
      simp [XT.fetch_metadata, XT.try_fetch_syndication_json,
        XT.try_fetch_third_party_json, hsynd, htp, htake]

/-- An oracle failing the syndication endpoints and answering FXTwitter. -/
def exOracle : XT.Oracle := fun u =>
  if u = XT.FXTWITTER_API "42" then
    .ok (.jobj [("tweet", .jobj [("text", .jstr "x")])])
  else .error "HTTP error fetching JSON: 404"

/-- An oracle failing every endpoint. -/
def exOracleFail : XT.Oracle := fun _ => .error "HTTP error fetching JSON: 403"

/-- Witness for C5: a fourth-endpoint success (with `tweet` unwrapping) and
a full exhaustion. -/
theorem C5_endpoint_fallback_witness :
    XT.fetch_metadata exOracle "42" =
      ((XT.endpointUrls "42").take 4, .ok (.jobj [("text", .jstr "x")]))
    ∧ XT.fetch_metadata exOracleFail "42" =
      (XT.endpointUrls "42", .error XT.metadataError) := by
  have h1 := (C5_endpoint_fallback exOracle "42").2.2.2 3 (by omega) (by omega)
    (by decide) (.jobj [("tweet", .jobj [("text", .jstr "x")])]) (by decide)
  have h2 := (C5_endpoint_fallback exOracleFail "42").2.1 (by decide)
  refine ⟨?_, h2⟩
  rw [h1]
  decide

/-! ### `twitter_media_downloader.py`: media extraction and pipeline -/

namespace TW

/-- `x.get('bitrate', 0)` as sort key (integer bitrates; a non-integer value
would make Python's comparison raise inside the caller's `except`). -/
def twBitrate (v : VDict) : Int :=
  match dlookup v "bitrate" with
  | some (.jint n) => n
  | _ => 0

/-- `[v for v in variants if v.get('content_type') == 'video/mp4']`; a
non-dict item would raise (`none` = the exception path). -/
def mp4Filter : List JVal → Option (List VDict)
  | [] => some []
  | x :: rest =>
      match x with
      | .jobj xf =>
          match mp4Filter rest with
          | none => none
          | some r =>
              if dget xf "content_type" = .jstr "video/mp4" then some (xf :: r)
              else some r
      | _ => none

/-- `mp4_variants.sort(key=..., reverse=True)`: stable descending by
bitrate, modelled by insertion sort on the reversed order. -/
def twSortDesc (vars : List VDict) : List VDict :=
  List.insertionSort (fun a b => twBitrate b ≤ twBitrate a) vars

/-- `_extract_media_from_entity` (lines 157-205): `now` stands for
`int(time.time())`.  `none` is the exception path (a `KeyError` or a raise
on an ill-typed payload value), which the caller's `except` turns into a
truncated media list. -/
def extract_from_entity (now : Int) (mf : VDict) : Option (List MediaRec) :=
  let mtype := dget mf "type"
  if mtype = .jstr "video" then
    match dlookup mf "video_info" with
    | none => some []
    | some (.jobj vf) =>
        match dlookup vf "variants" with
        | none => some []
        | some (.jarr vars) =>
            match mp4Filter vars with
            | none => none
            | some mp4s =>
                match twSortDesc mp4s with
                | [] => some []
                | best :: _ =>
                    match dlookup best "url" with
                    | some (.jstr u) =>
                        some [⟨u, "video", "twitter_video_" ++ toString now ++ ".mp4"⟩]
                    | _ => none
        | some _ => none
    | some _ => none
  else if mtype = .jstr "animated_gif" then
    match dlookup mf "video_info" with
    | none => some []
    | some (.jobj vf) =>
        match dlookup vf "variants" with
        | none => some []
        | some (.jarr vars) =>
            match mp4Filter vars with
            | none => none
            | some mp4s =>
                match mp4s with
                | [] => some []
                | best :: _ =>
                    match dlookup best "url" with
                    | some (.jstr u) =>
                        some [⟨u, "gif", "twitter_gif_" ++ toString now ++ ".mp4"⟩]
                    | _ => none
        | some _ => none
    | some _ => none
  else if mtype = .jstr "photo" then
    match dlookup mf "media_url_https" with
    | none => some []
    | some v =>
        if truthy v = false then some []
        else
          match v with
          | .jstr u =>
              some [⟨u ++ ":orig", "photo", "twitter_photo_" ++ toString now ++ ".jpg"⟩]
          | _ => none
  else some []

/-- One media entity in the `for media in ...` loops; a non-dict entity
raises (`false` = stop with what was collected). -/
def extractEntityAcc (now : Int) (m : JVal) : List MediaRec × Bool :=
  match m with
  | .jobj mf =>
      match extract_from_entity now mf with
      | some rs => (rs, true)
      | none => ([], false)
  | _ => ([], false)

def processMediaList (now : Int) : List JVal → List MediaRec × Bool
  | [] => ([], true)
  | m :: rest =>
      let r := extractEntityAcc now m
      if r.2 then
        let r2 := processMediaList now rest
        (r.1 ++ r2.1, r2.2)
      else (r.1, false)

/-- The `if 'legacy' in ...: ... extended_entities ... media` pattern used
for both the tweet and its quote (lines 137-150). -/
def processLegacyHolder (now : Int) (holder : VDict) : List MediaRec × Bool :=
  match dlookup holder "legacy" with
  | none => ([], true)
  | some (.jobj lf) =>
      match dlookup lf "extended_entities" with
      | none => ([], true)
      | some (.jobj ef) =>
          match dlookup ef "media" with
          | some (.jarr ms) => processMediaList now ms
          | _ => ([], false)
      | some _ => ([], false)
  | some _ => ([], false)

def processTweetResult (now : Int) (tr : VDict) : List MediaRec × Bool :=
  let r1 := processLegacyHolder now tr
  if r1.2 = false then r1
  else
    let r2 :=
      match dlookup tr "quoted_status_result" with
      | none => ([], true)
      | some (.jobj qr) =>
          match dlookup qr "result" with
          | some (.jobj qres) => processLegacyHolder now qres
          | _ => ([], false)
      | some _ => ([], false)
    (r1.1 ++ r2.1, r2.2)

def processEntry (now : Int) (entry : JVal) : List MediaRec × Bool :=
  match entry with
  | .jobj ef =>
      match dlookup ef "entryId" with
      | some (.jstr eid) =>
          if startsWithL ("tweet-".toList) eid.toList then
            match dlookup ef "content" with
            | some (.jobj cf) =>
                match dlookup cf "itemContent" with
                | some (.jobj icf) =>
                    match dlookup icf "tweet_results" with
                    | some (.jobj trf) =>
                        match dlookup trf "result" with
                        | some (.jobj tr) => processTweetResult now tr
                        | _ => ([], false)
                    | _ => ([], false)
                | _ => ([], false)
            | _ => ([], false)
          else ([], true)
      | _ => ([], false)
  | _ => ([], false)

def processEntries (now : Int) : List JVal → List MediaRec × Bool
  | [] => ([], true)
  | e :: rest =>
      let r := processEntry now e
      if r.2 then
        let r2 := processEntries now rest
        (r.1 ++ r2.1, r2.2)
      else (r.1, false)

def processInstruction (now : Int) (ins : JVal) : List MediaRec × Bool :=
  match ins with
  | .jobj insf =>
      if dget insf "type" = .jstr "TimelineAddEntries" then
        match dlookup insf "entries" with
        | none => ([], true)
        | some (.jarr es) => processEntries now es
        | some _ => ([], false)
      else ([], true)
  | _ => ([], false)

def processInstructions (now : Int) : List JVal → List MediaRec × Bool
  | [] => ([], true)
  | i :: rest =>
      let r := processInstruction now i
      if r.2 then
        let r2 := processInstructions now rest
        (r.1 ++ r2.1, r2.2)
      else (r.1, false)

/-- `extract_media_urls` (lines 122-155): walk the GraphQL payload down to
the timeline entries; any exception along the way is caught and whatever
was collected so far is returned. -/
def extract_media_urls (now : Int) (td : JVal) : List MediaRec :=
  match td with
  | .jobj tf =>
      match dlookup tf "data" with
      | some (.jobj df) =>
          match dlookup df "threaded_conversation_with_injections_v2" with
          | some (.jobj thf) =>
              match dlookup thf "instructions" with
              | some (.jarr ins) => (processInstructions now ins).1
              | _ => []
          | _ => []
      | _ => []
  | _ => []

/-- `download_media` (lines 207-240) at pipeline level: join the output
directory and suggested filename, stream the body directly into it (see
`download_media_write`), or report `None` when the request fails. -/
def download_media (media : String → Option (List Content)) (fs : FSys)
    (output_dir : String) (m : MediaRec) : Option String × FSys :=
  let filepath := output_dir ++ "/" ++ m.filename
  match media m.url with
  | none => (none, fs)
  | some chunks => (some filepath, (download_media_write fs filepath chunks).2)

def downloadAll (media : String → Option (List Content)) (output_dir : String) :
    List MediaRec → FSys → List String × FSys
  | [], fs => ([], fs)
  | m :: rest, fs =>
      let r := download_media media fs output_dir m
      let r2 := downloadAll media output_dir rest r.2
      match r.1 with
      | some p => (p :: r2.1, r2.2)
      | none => (r2.1, r2.2)

/-- `download_from_url` (lines 242-276): extract the ID (failure returns an
empty list before any network use), fetch the tweet data (`getData` is the
network oracle for `get_tweet_data`), extract media records, download each.
The boolean reports whether the network was consulted. -/
def download_from_url (getData : Option JVal)
    (media : String → Option (List Content)) (fs : FSys) (now : Int)
    (url : String) (output_dir : String) : List String × FSys × Bool :=
  match extract_tweet_id url with
  | .error _ => ([], fs, false)
  | .ok _ =>
      match getData with
      | none => ([], fs, true)
      | some td =>
          let ms := extract_media_urls now td
          if ms = [] then ([], fs, true)
          else
            let r := downloadAll media output_dir ms fs
            (r.1, r.2, true)

/-- `main` (lines 279-301): exit 1 when no files were downloaded, 0
otherwise; the second component reports network use. -/
def main_run (getData : Option JVal) (media : String → Option (List Content))
    (fs : FSys) (now : Int) (url : String) (output_dir : String) : Int × Bool :=
  let r := download_from_url getData media fs now url output_dir
  (if r.1 = [] then 1 else 0, r.2.2)

end TW

/-! ### `x_twitter_media_downloader.py`: full pipeline (claims C4, C9) -/

namespace XT

/-- The `DownloadPlan` dataclass (lines 287-293). -/
structure DownloadPlan where
  tweet_id : String
  output : Option String
  download_all : Bool
  include_m3u8 : Bool
  force : Bool

/-- The download loop of `download_from_tweet_url` (lines 370-378): resolve
each target's output path and stream it (`stream_download` checks the
destination before opening the connection), threading the filesystem;
`media` maps a source URL to its response chunks or a network failure.
The first component is the list of media URLs requested over the network.
Directory creation (`mkdir`) is not represented in the flat `FSys`. -/
def download_targets (media : String → Except String (List Content))
    (existsD isDir : String → Bool) (output : Option String) (tid : String)
    (force : Bool) : List VDict → Nat → FSys →
      List String × Except String (List String × FSys)
  | [], _, fs => ([], .ok ([], fs))
  | v :: rest, idx, fs =>
      let src := pyOr (dget v "src") (dget v "url")
      if truthy src = false then
        download_targets media existsD isDir output tid force rest (idx + 1) fs
      else
        let url := match src with | .jstr s => s | _ => ""
        let out_path := resolve_output_path existsD isDir output tid v idx
        if (fs out_path).isSome ∧ force = false then
          ([], .error ("Destination file exists: " ++ out_path ++
            " (use --force to overwrite)"))
        else
          match media url with
          | .error e => ([url], .error ("Error downloading media: " ++ e))
          | .ok chunks =>
              let sd := stream_download fs out_path chunks force
              match sd.2.1 with
              | .error e => ([url], .error e)
              | .ok _ =>
                  let r := download_targets media existsD isDir output tid force
                    rest (idx + 1) sd.2.2
                  (url :: r.1,
                   match r.2 with
                   | .error e => .error e
                   | .ok (outs, fs2) => .ok (out_path :: outs, fs2))

/-- `download_from_tweet_url` (lines 331-379): fetch metadata over the
endpoint chain, select targets, download them.  The first component is the
full network trace (metadata attempts, then media requests). -/
def download_from_tweet_url (o : Oracle)
    (media : String → Except String (List Content))
    (existsD isDir : String → Bool) (fs : FSys) (plan : DownloadPlan) :
    List String × Except String (List String × FSys) :=
  let rf := fetch_metadata o plan.tweet_id
  match rf.2 with
  | .error e => (rf.1, .error e)
  | .ok data =>
      match select_targets data plan.download_all plan.include_m3u8 with
      | .error e => (rf.1, .error e)
      | .ok targets =>
          let r := download_targets media existsD isDir plan.output plan.tweet_id
            plan.force targets 0 fs
          (rf.1 ++ r.1, r.2)

/-- `main` (lines 392-418): exit 2 when ID extraction raises (before any
network use), 1 when the download pipeline raises `DownloadError`, 0 on
success.  The second component is the network trace of the run. -/
def main_run (o : Oracle) (media : String → Except String (List Content))
    (existsD isDir : String → Bool) (fs : FSys) (url : String)
    (output : Option String) (dall m3u8 force : Bool) : Int × List String :=
  match extract_tweet_id url with
  | .error _ => (2, [])
  | .ok tid =>
      let r := download_from_tweet_url o media existsD isDir fs
        ⟨tid, output, dall, m3u8, force⟩
      match r.2 with
      | .error _ => (1, r.1)
      | .ok _ => (0, r.1)

end XT

/-- Claim C4 counterexample: a URL with no `status` path segment is
"malformed" by the claim's definition, yet extraction succeeds through the
`id` query-parameter fallback (lines 84-88), so the claim's failure
guarantee does not hold as stated. -/
theorem C4_counterexample :
    XT.extract_tweet_id "https://x.com/abc?id=123" = .ok "123" := by
  decide

/-- Claim C4 (amended): extraction fails when the path has no `status`
segment with a successor and the query has no usable `id` value, and when
the candidate segment is non-numeric; whenever extraction fails, the `x_`
CLI exits 2 without touching the network, and the `twitter_media_downloader`
pipeline returns no files without touching the network. -/
theorem C4_malformed_url_no_network (o : XT.Oracle)
    (media : String → Except String (List Content)) (existsD isDir : String → Bool)
    (fs : FSys) (url : String) (output : Option String) (dall m3u8 force : Bool)
    (gd : Option JVal) (md2 : String → Option (List Content)) (now : Int)
    (outdir : String) :
    (XT.findStatusSuccessor ((splitChar '/' (urlsplitL url.toList).path).filter
        (fun seg => seg ≠ [])) = none →
      qsFirst (urlsplitL url.toList).query ("id".toList) = none →
      XT.extract_tweet_id url =
        .error "Could not extract tweet ID from URL. Expected .../status/<id>.")
    ∧ (∀ t, XT.findStatusSuccessor ((splitChar '/' (urlsplitL url.toList).path).filter
        (fun seg => seg ≠ [])) = some t →
      pyIsDigit (t.takeWhile (fun c => c ≠ '?' ∧ c ≠ '#')) = false →
      isOkE (XT.extract_tweet_id url) = false)
    ∧ (isOkE (XT.extract_tweet_id url) = false →
      XT.main_run o media existsD isDir fs url output dall m3u8 force = (2, []))
    ∧ (isOkE (TW.extract_tweet_id url) = false →
      TW.download_from_url gd md2 fs now url outdir = ([], fs, false)) := by
  refine ⟨?_, ?_, ?_, ?_⟩
  · intro h1 h2
    simp only [XT.extract_tweet_id]
    rw [h1, h2]
  · intro t h1 h2
    simp only [XT.extract_tweet_id]
    rw [h1]
    simp only [h2]
    simp [isOkE]
  · intro hfail
    cases hext : XT.extract_tweet_id url with
    | error e => simp [XT.main_run, hext]
    | ok tid => rw [hext] at hfail; simp [isOkE] at hfail
  · intro hfail
    cases hext : TW.extract_tweet_id url with
    | error e => simp [TW.download_from_url, hext]
    | ok tid => rw [hext] at hfail; simp [isOkE] at hfail

/-- Witness for C4: the two malformed families and the two pipelines. -/
theorem C4_malformed_url_no_network_witness :
    XT.extract_tweet_id "https://x.com/foo" =
      .error "Could not extract tweet ID from URL. Expected .../status/<id>."
    ∧ XT.main_run exOracleFail (fun _ => .error "x") (fun _ => false)
        (fun _ => false) exFS0 "https://x.com/foo" none false false false = (2, [])
    ∧ isOkE (XT.extract_tweet_id "https://x.com/u/status/abc123") = false
    ∧ TW.download_from_url none (fun _ => none) exFS0 0 "https://x.com/foo" "." =
        ([], exFS0, false) := by
  have h1 := C4_malformed_url_no_network exOracleFail (fun _ => .error "x")
    (fun _ => false) (fun _ => false) exFS0 "https://x.com/foo" none false false false
    none (fun _ => none) 0 "."
  have h2 := C4_malformed_url_no_network exOracleFail (fun _ => .error "x")
    (fun _ => false) (fun _ => false) exFS0 "https://x.com/u/status/abc123" none
    false false false none (fun _ => none) 0 "."
  have he1 := h1.1 (by decide) (by decide)
  refine ⟨he1, h1.2.2.1 (by rw [he1]; rfl), ?_, h1.2.2.2 (by decide)⟩
  exact h2.2.1 ("abc123".toList) (by decide) (by decide)

/-- Claim C9 counterexample: on an invalid URL the `twitter_media_downloader`
CLI exits 1 (it reports "no files were downloaded"), not 2 as claimed. -/
theorem C9_counterexample :
    (TW.main_run none (fun _ => none) exFS0 0 "https://x.com/foo" ".").1 = 1
    ∧ ((1 : Int) ≠ 2) := by
  constructor
  · decide
  · decide

/-- Claim C9 (amended): the `x_` CLI exits 2 on an invalid URL (before any
network use), 1 when metadata fetching exhausts the endpoints, when no
media is selected, or when a download fails, and 0 when the whole pipeline
succeeds; the `twitter_media_downloader` CLI instead exits 1 whenever no
files were downloaded — including on an invalid URL. -/
theorem C9_exit_codes (o : XT.Oracle) (media : String → Except String (List Content))
    (existsD isDir : String → Bool) (fs : FSys) (url : String)
    (output : Option String) (dall m3u8 force : Bool)
    (gd : Option JVal) (md2 : String → Option (List Content)) (now : Int)
    (outdir : String) :
    (isOkE (XT.extract_tweet_id url) = false →
      XT.main_run o media existsD isDir fs url output dall m3u8 force = (2, []))
    ∧ (∀ tid, XT.extract_tweet_id url = .ok tid →
        (∀ u ∈ XT.endpointUrls tid, isOkE (o u) = false) →
        XT.main_run o media existsD isDir fs url output dall m3u8 force =
          (1, XT.endpointUrls tid))
    ∧ (∀ tid tr data e, XT.extract_tweet_id url = .ok tid →
        XT.fetch_metadata o tid = (tr, .ok data) →
        XT.select_targets data dall m3u8 = .error e →
        XT.main_run o media existsD isDir fs url output dall m3u8 force = (1, tr))
    ∧ (∀ tid tr data targets, XT.extract_tweet_id url = .ok tid →
        XT.fetch_metadata o tid = (tr, .ok data) →
        XT.select_targets data dall m3u8 = .ok targets →
        isOkE (XT.download_targets media existsD isDir output tid force
          targets 0 fs).2 = false →
        XT.main_run o media existsD isDir fs url output dall m3u8 force =
          (1, tr ++ (XT.download_targets media existsD isDir output tid force
            targets 0 fs).1))
    ∧ (∀ tid tr data targets, XT.extract_tweet_id url = .ok tid →
        XT.fetch_metadata o tid = (tr, .ok data) →
        XT.select_targets data dall m3u8 = .ok targets →
        isOkE (XT.download_targets media existsD isDir output tid force
          targets 0 fs).2 = true →
        XT.main_run o media existsD isDir fs url output dall m3u8 force =
          (0, tr ++ (XT.download_targets media existsD isDir output tid force
            targets 0 fs).1))
    ∧ (isOkE (TW.extract_tweet_id url) = false →
        TW.main_run gd md2 fs now url outdir = (1, false)) := by
  refine ⟨?_, ?_, ?_, ?_, ?_, ?_⟩
  · intro hfail
    cases hext : XT.extract_tweet_id url with
    | error e => simp [XT.main_run, hext]
    | ok tid => rw [hext] at hfail; simp [isOkE] at hfail
  · intro tid hext hall
    have hs : XT.tryEach o (XT.SYNDICATION_URLS tid) =
        (XT.SYNDICATION_URLS tid, none) :=
      XT.tryEach_all_fail o _ (fun u hu => hall u (List.mem_append_left _ hu))
    have ht : XT.tryEach o [XT.FXTWITTER_API tid, XT.VXTWITTER_API tid] =
        ([XT.FXTWITTER_API tid, XT.VXTWITTER_API tid], none) :=
      XT.tryEach_all_fail o _ (fun u hu => hall u (List.mem_append_right _ hu))
    have hfm : XT.fetch_metadata o tid = (XT.endpointUrls tid, .error XT.metadataError) := by
      simp [XT.fetch_metadata, XT.try_fetch_syndication_json,
        XT.try_fetch_third_party_json, hs, ht, XT.endpointUrls]
    simp [XT.main_run, hext, XT.download_from_tweet_url, hfm]
  · intro tid tr data e hext hfm hsel
    simp [XT.main_run, hext, XT.download_from_tweet_url, hfm, hsel]
  · intro tid tr data targets hext hfm hsel hdl
    obtain ⟨e2, he2⟩ : ∃ e2, (XT.download_targets media existsD isDir output tid force
        targets 0 fs).2 = .error e2 := by
      cases hr : (XT.download_targets media existsD isDir output tid force
          targets 0 fs).2 with
      | ok r => rw [hr] at hdl; simp [isOkE] at hdl
      | error e2 => exact ⟨e2, rfl⟩
    simp [XT.main_run, hext, XT.download_from_tweet_url, hfm, hsel, he2]
  · intro tid tr data targets hext hfm hsel hdl
    obtain ⟨r, hr⟩ : ∃ r, (XT.download_targets media existsD isDir output tid force
        targets 0 fs).2 = .ok r := by
      cases hr : (XT.download_targets media existsD isDir output tid force
          targets 0 fs).2 with
      | ok r => exact ⟨r, rfl⟩
      | error e2 => rw [hr] at hdl; simp [isOkE] at hdl
    simp [XT.main_run, hext, XT.download_from_tweet_url, hfm, hsel, hr]
  · intro hfail
    cases hext : TW.extract_tweet_id url with
    | error e => simp [TW.main_run, TW.download_from_url, hext]
    | ok tid => rw [hext] at hfail; simp [isOkE] at hfail

/-- A syndication payload with one mp4 variant. -/
def exPayload : JVal :=
  .jobj [("video", .jobj [("variants", .jarr
    [.jobj [("src", .jstr "https://video.twimg.com/a.mp4"),
            ("type", .jstr "video/mp4"), ("bitrate", .jint 500)]])])]

/-- An oracle answering the first syndication endpoint for tweet 42. -/
def exOracleOk : XT.Oracle := fun u =>
  if u = (XT.SYNDICATION_URLS "42").getD 0 "" then .ok exPayload
  else .error "HTTP error fetching JSON: 404"

/-- A media oracle serving the example variant. -/
def exMedia : String → Except String (List Content) := fun u =>
  if u = "https://video.twimg.com/a.mp4" then .ok [[1, 2]]
  else .error "404"

/-- Witness for C9: a full success (exit 0), metadata exhaustion (exit 1),
an invalid URL on the `x_` CLI (exit 2), and an invalid URL on the
`twitter_media_downloader` CLI (exit 1). -/
theorem C9_exit_codes_witness :
    XT.main_run exOracleOk exMedia (fun _ => false) (fun _ => false) exFS0
      "https://x.com/techdevnotes/status/42" none false false false =
      (0, [(XT.SYNDICATION_URLS "42").getD 0 "", "https://video.twimg.com/a.mp4"])
    ∧ XT.main_run exOracleFail exMedia (fun _ => false) (fun _ => false) exFS0
        "https://x.com/techdevnotes/status/42" none false false false =
        (1, XT.endpointUrls "42")
    ∧ XT.main_run exOracleFail exMedia (fun _ => false) (fun _ => false) exFS0
        "https://x.com/foo" none false false false = (2, [])
    ∧ TW.main_run none (fun _ => none) exFS0 0 "https://x.com/foo" "." = (1, false) := by
  have h1 := C9_exit_codes exOracleOk exMedia (fun _ => false) (fun _ => false)
    exFS0 "https://x.com/techdevnotes/status/42" none false false false
    none (fun _ => none) 0 "."
  have h2 := C9_exit_codes exOracleFail exMedia (fun _ => false) (fun _ => false)
    exFS0 "https://x.com/techdevnotes/status/42" none false false false
    none (fun _ => none) 0 "."
  have h3 := C9_exit_codes exOracleFail exMedia (fun _ => false) (fun _ => false)
    exFS0 "https://x.com/foo" none false false false
    none (fun _ => none) 0 "."
  refine ⟨?_, ?_, ?_, ?_⟩
  · have hs := h1.2.2.2.2.1 "42" ((XT.SYNDICATION_URLS "42").take 1) exPayload
      [[("src", .jstr "https://video.twimg.com/a.mp4"),
        ("type", .jstr "video/mp4"), ("bitrate", .jint 500)]]
      (by decide) (by decide) (by decide) (by decide)
    rw [hs]
    decide
  · exact h2.2.1 "42" (by decide) (by decide)
  · exact h3.1 (by decide)
  · exact h3.2.2.2.2.2 (by decide)

/-- A payload carrying a duplicated variant source. -/
def dupPayload : JVal :=
  .jobj [("video", .jobj [("variants", .jarr
    [.jobj [("src", .jstr "https://video.twimg.com/a.mp4"), ("bitrate", .jint 500)],
     .jobj [("src", .jstr "https://video.twimg.com/b.mp4"), ("bitrate", .jint 900)],
     .jobj [("src", .jstr "https://video.twimg.com/a.mp4"), ("bitrate", .jint 500)]])])]

/-- A scraped media list with a duplicated url. -/
def dupMedia : List MediaRec :=
  [⟨"https://v/a.mp4", "video", "f1.mp4"⟩,
   ⟨"https://v/a.mp4", "video", "f2.mp4"⟩,
   ⟨"https://v/b.mp4", "gif", "f3.mp4"⟩]

/-- Witness for C10 on payloads with duplicated sources. -/
theorem C10_extraction_dedup_witness :
    List.Nodup ((XT.gather_variants dupPayload).map XT.variantKey)
    ∧ List.Nodup ((TS.dedup_media dupMedia []).map MediaRec.url) := by
  have h := C10_extraction_dedup dupPayload dupMedia
  exact ⟨h.1, h.2.2.2.2.1⟩
